import Mathlib

/-!
# Feather `FilesEngine`: classification, Mach-O analysis, hashing, comparison, scanning

A shallow embedding of `Feather/Utilities/Files/FilesEngine.cpp`.

* Bytes are natural numbers; a well-formed byte is `< 256`.
* A C string is the list of its bytes without the terminating NUL, so a
  well-formed C string contains no `0`.
* The file system is a function from paths to what `open`/`read` observe,
  together with a table of `stat` results and a table of directory listings.
* The thread-local `lastErrorMessage` buffer is threaded through every
  operation: each function takes the current message and returns the new one.
* The CommonCrypto digests are parameters of the hashing functions.
* Loops whose length depends on the input (stream reads, directory recursion)
  take fuel; the theorems show that the fuel supplied is enough.
-/

namespace Feather

/-! ## Data model (`FilesEngine.h`) -/

/-- The `FileType` enumeration of `FilesEngine.h`, in declaration order. -/
inductive FileType
  | FileTypeUnknown
  | FileTypeText
  | FileTypeImage
  | FileTypeVideo
  | FileTypeAudio
  | FileTypeArchive
  | FileTypeIPA
  | FileTypeMachO
  | FileTypePlist
  | FileTypeJSON
  | FileTypeXML
  | FileTypePDF
  | FileTypeP12
  | FileTypeMobileProvision
  | FileTypeDylib
  deriving DecidableEq, Repr

/-- The `MachOInfo` record of `FilesEngine.h`. `int` fields are integers, the
`char architectures[256]` field is the string it holds. -/
structure MachOInfo where
  isValid : Bool
  is64Bit : Bool
  isArm64e : Bool
  architectureCount : Int
  architectures : String
  hasEncryption : Bool
  isPIE : Bool
  numberOfLoadCommands : Int
  deriving DecidableEq, Repr

/-- The value of `MachOInfo info = {0}`. -/
def MachOInfo.zero : MachOInfo :=
  { isValid := false, is64Bit := false, isArm64e := false, architectureCount := 0,
    architectures := "", hasEncryption := false, isPIE := false,
    numberOfLoadCommands := 0 }

/-! ## Environment: files and the error buffer -/

/-- What `open(path, O_RDONLY)` followed by `read` observes for a path. -/
inductive FileNode
  /-- `open` fails (`fd < 0`). -/
  | absent
  /-- `open` succeeds but `read` returns `-1` (for instance a directory). -/
  | unreadable
  /-- A readable file with the given bytes; `read(fd, buf, n)` on a fresh
  descriptor yields the first `min n length` of them. -/
  | regular (content : List Nat)
  deriving DecidableEq, Repr

/-- The file system: what each path resolves to. -/
abbrev FileSystem := List Nat → FileNode

/-- The bytes of an ASCII string literal. -/
def cstr (s : String) : List Nat := s.toList.map Char.toNat

/-- The `setError` helper: `vsnprintf` into the 1024-byte `lastErrorMessage`
buffer keeps at most 1023 bytes of the formatted message. The argument is the
message after `%s` substitution. -/
def setError (formatted : List Nat) : List Nat := formatted.take 1023

/-! ## C library functions used by the engine -/

/-- The C `tolower` on ASCII: `A`..`Z` map to `a`..`z`. -/
def tolower (c : Nat) : Nat := if 65 ≤ c ∧ c ≤ 90 then c + 32 else c

/-- The C `strcasecmp(a, b)`: difference of the first pair of bytes that differ
after `tolower`, the terminator counting as byte `0`. -/
def strcasecmp : List Nat → List Nat → Int
  | [], [] => 0
  | [], b :: _ => 0 - (tolower b : Int)
  | a :: _, [] => (tolower a : Int) - 0
  | a :: as, b :: bs =>
    if tolower a = tolower b then strcasecmp as bs else (tolower a : Int) - (tolower b : Int)

/-- The C `strrchr(s, c)` for `c ≠ 0`: the suffix of `s` starting at the last
occurrence of `c`, or `none` (the null pointer) when `c` does not occur. -/
def strrchr : List Nat → Nat → Option (List Nat)
  | [], _ => none
  | x :: xs, c =>
    match strrchr xs c with
    | some r => some r
    | none => if x = c then some (x :: xs) else none

/-- The C `memcmp(a, b, n)`: difference of the first pair of differing bytes
among the first `n`. Every call site guarantees both buffers hold `n` bytes. -/
def memcmp : List Nat → List Nat → Nat → Int
  | a :: as, b :: bs, n + 1 => if a = b then memcmp as bs n else (a : Int) - (b : Int)
  | _, _, _ => 0

/-! ## Magic byte detection (`FilesEngine.cpp` lines 29-134) -/

/-- One row of the `magicSignatures` table. -/
structure MagicSignature where
  bytes : List Nat
  length : Nat
  type : FileType
  deriving DecidableEq, Repr

/-- The `magicSignatures` table, in source order. -/
def magicSignatures : List MagicSignature :=
  [ ⟨[0xFE, 0xED, 0xFA, 0xCE], 4, .FileTypeMachO⟩,   -- 32-bit
    ⟨[0xFE, 0xED, 0xFA, 0xCF], 4, .FileTypeMachO⟩,   -- 64-bit
    ⟨[0xCE, 0xFA, 0xED, 0xFE], 4, .FileTypeMachO⟩,   -- 32-bit reverse
    ⟨[0xCF, 0xFA, 0xED, 0xFE], 4, .FileTypeMachO⟩,   -- 64-bit reverse
    ⟨[0xCA, 0xFE, 0xBA, 0xBE], 4, .FileTypeMachO⟩,   -- Fat binary
    ⟨[0xBE, 0xBA, 0xFE, 0xCA], 4, .FileTypeMachO⟩,   -- Fat binary reverse
    ⟨[0x50, 0x4B, 0x03, 0x04], 4, .FileTypeArchive⟩, -- "PK\x03\x04" ZIP/IPA
    ⟨[0x50, 0x4B, 0x05, 0x06], 4, .FileTypeArchive⟩, -- "PK\x05\x06" ZIP empty
    ⟨[0x50, 0x4B, 0x07, 0x08], 4, .FileTypeArchive⟩, -- "PK\x07\x08" ZIP spanned
    ⟨[0xFF, 0xD8, 0xFF], 3, .FileTypeImage⟩,         -- JPEG
    ⟨[0x89, 0x50, 0x4E, 0x47], 4, .FileTypeImage⟩,   -- "\x89PNG"
    ⟨[0x47, 0x49, 0x46, 0x38, 0x39, 0x61], 6, .FileTypeImage⟩, -- "GIF89a"
    ⟨[0x47, 0x49, 0x46, 0x38, 0x37, 0x61], 6, .FileTypeImage⟩, -- "GIF87a"
    ⟨[0x66, 0x74, 0x79, 0x70], 4, .FileTypeVideo⟩,   -- "ftyp"
    ⟨[0x25, 0x50, 0x44, 0x46], 4, .FileTypePDF⟩,     -- "%PDF"
    ⟨[0x3C, 0x3F, 0x78, 0x6D, 0x6C], 5, .FileTypeXML⟩, -- "<?xml"
    ⟨[0x62, 0x70, 0x6C, 0x69, 0x73, 0x74], 6, .FileTypePlist⟩ ] -- "bplist"

/-- The character `'.'`. -/
def dotChar : Nat := 46

/-- The literal `".ipa"`. -/
def litDotIpa : List Nat := [46, 105, 112, 97]

/-- The literal `"ftyp"`. -/
def litFtyp : List Nat := [0x66, 0x74, 0x79, 0x70]

/-- The literal `"json"`. -/
def litJson : List Nat := [106, 115, 111, 110]

/-- The literal `"plist"`. -/
def litPlist : List Nat := [112, 108, 105, 115, 116]

/-- The literal `"xml"`. -/
def litXml : List Nat := [120, 109, 108]

/-- The literal `"txt"`. -/
def litTxt : List Nat := [116, 120, 116]

/-- The literal `"text"`. -/
def litText : List Nat := [116, 101, 120, 116]

/-- The literal `"p12"`. -/
def litP12 : List Nat := [112, 49, 50]

/-- The literal `"pfx"`. -/
def litPfx : List Nat := [112, 102, 120]

/-- The literal `"mobileprovision"`. -/
def litMobileprovision : List Nat :=
  [109, 111, 98, 105, 108, 101, 112, 114, 111, 118, 105, 115, 105, 111, 110]

/-- The literal `"dylib"`. -/
def litDylib : List Nat := [100, 121, 108, 105, 98]

/-- The literal `"mp3"`. -/
def litMp3 : List Nat := [109, 112, 51]

/-- The literal `"m4a"`. -/
def litM4a : List Nat := [109, 52, 97]

/-- The body run on a matching row (lines 91-98): a ZIP row is refined to
`FileTypeIPA` when `strrchr(filePath, '.')` is non-null and equals `".ipa"` under
`strcasecmp`; otherwise the row's type is returned. -/
def matchedType (filePath : List Nat) (sig : MagicSignature) : FileType :=
  if sig.type = FileType.FileTypeArchive then
    match strrchr filePath dotChar with
    | some ext => if strcasecmp ext litDotIpa = 0 then FileType.FileTypeIPA else sig.type
    | none => sig.type
  else sig.type

/-- The signature loop of `detectFileType` (lines 88-101): the first row whose
pattern fits in the bytes read and equals the start of the buffer decides.
`none` means the loop ran to its end. -/
def matchSignature (filePath buffer : List Nat) : List MagicSignature → Option FileType
  | [] => none
  | sig :: rest =>
    if buffer.length ≥ sig.length ∧ memcmp buffer sig.bytes sig.length = 0 then
      some (matchedType filePath sig)
    else matchSignature filePath buffer rest

/-- The extension fallback of `detectFileType` (lines 109-120); `none` means no
branch returned. -/
def extensionFallback (filePath : List Nat) : Option FileType :=
  match strrchr filePath dotChar with
  | none => none
  | some dotExt =>
    let ext := dotExt.drop 1
    if strcasecmp ext litJson = 0 then some FileType.FileTypeJSON
    else if strcasecmp ext litPlist = 0 then some FileType.FileTypePlist
    else if strcasecmp ext litXml = 0 then some FileType.FileTypeXML
    else if strcasecmp ext litTxt = 0 ∨ strcasecmp ext litText = 0 then
      some FileType.FileTypeText
    else if strcasecmp ext litP12 = 0 ∨ strcasecmp ext litPfx = 0 then
      some FileType.FileTypeP12
    else if strcasecmp ext litMobileprovision = 0 then some FileType.FileTypeMobileProvision
    else if strcasecmp ext litDylib = 0 then some FileType.FileTypeDylib
    else if strcasecmp ext litMp3 = 0 ∨ strcasecmp ext litM4a = 0 then
      some FileType.FileTypeAudio
    else none

/-- The plain-text loop of `detectFileType` (lines 123-129) over the bytes read. -/
def isText : List Nat → Bool
  | [] => true
  | b :: rest =>
    if b = 0 ∨ (b < 32 ∧ b ≠ 10 ∧ b ≠ 13 ∧ b ≠ 9) then false else isText rest

/-- Lines 87-133 of `detectFileType`: classification of the `bytesRead` bytes in
`buffer` for the given path. -/
def classifyBuffer (filePath buffer : List Nat) : FileType :=
  match matchSignature filePath buffer magicSignatures with
  | some t => t
  | none =>
    if buffer.length ≥ 12 ∧ memcmp (buffer.drop 4) litFtyp 4 = 0 then FileType.FileTypeVideo
    else
      match extensionFallback filePath with
      | some t => t
      | none => if isText buffer then FileType.FileTypeText else FileType.FileTypeUnknown

/-- The function `detectFileType(filePath)`: `none` is the null path. Returns the
type and the new content of `lastErrorMessage`. -/
def detectFileType (fs : FileSystem) (filePath : Option (List Nat)) (lastErrorMessage : List Nat) :
    FileType × List Nat :=
  match filePath with
  | none => (FileType.FileTypeUnknown, setError (cstr "Invalid file path"))
  | some p =>
    match fs p with
    | FileNode.absent =>
      (FileType.FileTypeUnknown, setError (cstr "Cannot open file: " ++ p))
    | FileNode.unreadable =>
      (FileType.FileTypeUnknown, setError (cstr "Cannot read file: " ++ p))
    | FileNode.regular content => (classifyBuffer p (content.take 32), lastErrorMessage)

/-! ## Mach-O analysis (`FilesEngine.cpp` lines 269-333) -/

/-- The constant `MH_MAGIC` of `<mach-o/loader.h>`. -/
def MH_MAGIC : Nat := 0xfeedface

/-- The constant `MH_CIGAM` of `<mach-o/loader.h>`. -/
def MH_CIGAM : Nat := 0xcefaedfe

/-- The constant `MH_MAGIC_64` of `<mach-o/loader.h>`. -/
def MH_MAGIC_64 : Nat := 0xfeedfacf

/-- The constant `MH_CIGAM_64` of `<mach-o/loader.h>`. -/
def MH_CIGAM_64 : Nat := 0xcffaedfe

/-- The constant `FAT_MAGIC` of `<mach-o/fat.h>`. -/
def FAT_MAGIC : Nat := 0xcafebabe

/-- The constant `FAT_CIGAM` of `<mach-o/fat.h>`. -/
def FAT_CIGAM : Nat := 0xbebafeca

/-- The constant `FAT_MAGIC_64` of `<mach-o/fat.h>`. -/
def FAT_MAGIC_64 : Nat := 0xcafebabf

/-- The constant `FAT_CIGAM_64` of `<mach-o/fat.h>`. -/
def FAT_CIGAM_64 : Nat := 0xbfbafeca

/-- The `uint32_t` a host reads from four consecutive bytes of memory: the first
byte is the most significant on a big-endian host and the least significant on
a little-endian one. -/
def loadUInt32 (bigEndianHost : Bool) : List Nat → Nat
  | [b0, b1, b2, b3] =>
    if bigEndianHost then b0 * 2 ^ 24 + b1 * 2 ^ 16 + b2 * 2 ^ 8 + b3
    else b0 + b1 * 2 ^ 8 + b2 * 2 ^ 16 + b3 * 2 ^ 24
  | _ => 0

/-- Byte reversal of a 32-bit value. -/
def OSSwapInt32 (x : Nat) : Nat :=
  (x % 256) * 2 ^ 24 + (x / 2 ^ 8 % 256) * 2 ^ 16 + (x / 2 ^ 16 % 256) * 2 ^ 8
    + (x / 2 ^ 24 % 256)

/-- The macro `OSSwapBigToHostInt32`: the identity on a big-endian host, a byte
swap on a little-endian one. -/
def OSSwapBigToHostInt32 (bigEndianHost : Bool) (x : Nat) : Nat :=
  if bigEndianHost then x else OSSwapInt32 x

/-- Conversion of a `uint32_t` to the 32-bit `int` field: two's complement. -/
def toInt32 (x : Nat) : Int :=
  if x % 2 ^ 32 < 2 ^ 31 then ((x % 2 ^ 32 : Nat) : Int) else ((x % 2 ^ 32 : Nat) : Int) - 2 ^ 32

/-- The `switch (magic)` of `analyzeMachO` (lines 292-332) once four bytes were
read: `magic` is the loaded word, `content` the file (re-read from offset 0 for
the 8-byte `fat_header`). Returns the record and whether `setError` ran. -/
def analyzeMagic (bigEndianHost : Bool) (magic : Nat) (content : List Nat) : MachOInfo × Bool :=
  let info := { MachOInfo.zero with isValid := true }
  if magic = MH_MAGIC ∨ magic = MH_CIGAM then
    ({ info with is64Bit := false, architectureCount := 1, architectures := "arm" }, false)
  else if magic = MH_MAGIC_64 ∨ magic = MH_CIGAM_64 then
    ({ info with is64Bit := true, architectureCount := 1, architectures := "arm64" }, false)
  else if magic = FAT_MAGIC ∨ magic = FAT_CIGAM ∨ magic = FAT_MAGIC_64 ∨ magic = FAT_CIGAM_64 then
    let header := content.take 8
    if header.length = 8 then
      let nfat_arch := OSSwapBigToHostInt32 bigEndianHost (loadUInt32 bigEndianHost (header.drop 4))
      ({ info with architectureCount := toInt32 nfat_arch, architectures := "universal" }, false)
    else (info, false)
  else ({ info with isValid := false }, true)

/-- The function `analyzeMachO(machoPath)` on a host of the given byte order:
`none` is the null path. Returns the record and the new `lastErrorMessage`. -/
def analyzeMachO (bigEndianHost : Bool) (fs : FileSystem) (machoPath : Option (List Nat))
    (lastErrorMessage : List Nat) : MachOInfo × List Nat :=
  match machoPath with
  | none => (MachOInfo.zero, setError (cstr "Invalid Mach-O path"))
  | some p =>
    match fs p with
    | FileNode.absent => (MachOInfo.zero, setError (cstr "Cannot open Mach-O file: " ++ p))
    | FileNode.unreadable => (MachOInfo.zero, setError (cstr "Cannot read magic number"))
    | FileNode.regular content =>
      if (content.take 4).length ≠ 4 then
        (MachOInfo.zero, setError (cstr "Cannot read magic number"))
      else
        let r := analyzeMagic bigEndianHost (loadUInt32 bigEndianHost (content.take 4)) content
        if r.2 then (r.1, setError (cstr "Invalid Mach-O magic number"))
        else (r.1, lastErrorMessage)

/-! ## Vocabulary of the specification -/

/-- Equality of two byte strings up to ASCII letter case. -/
abbrev eqIgnoreAsciiCase (a b : List Nat) : Prop := a.map tolower = b.map tolower

/-- A well-formed C string: no NUL byte inside. -/
abbrev IsCString (s : List Nat) : Prop := ∀ c ∈ s, c ≠ 0

/-- The text after the last `'.'` of `path` is `ext`. -/
def HasExtension (path ext : List Nat) : Prop :=
  ∃ pre, path = pre ++ dotChar :: ext ∧ dotChar ∉ ext

/-- The extension table as the specification lists it: json, plist, xml,
txt/text, p12/pfx, mobileprovision, dylib, mp3/m4a. -/
def mappedExtensions : List (List Nat × FileType) :=
  [ (litJson, FileType.FileTypeJSON), (litPlist, FileType.FileTypePlist),
    (litXml, FileType.FileTypeXML), (litTxt, FileType.FileTypeText),
    (litText, FileType.FileTypeText), (litP12, FileType.FileTypeP12),
    (litPfx, FileType.FileTypeP12), (litMobileprovision, FileType.FileTypeMobileProvision),
    (litDylib, FileType.FileTypeDylib), (litMp3, FileType.FileTypeAudio),
    (litM4a, FileType.FileTypeAudio) ]

/-- The path has an extension that the table maps, ignoring letter case, to `t`. -/
def ExtensionMapsTo (path : List Nat) (t : FileType) : Prop :=
  ∃ ext e, HasExtension path ext ∧ (e, t) ∈ mappedExtensions ∧ eqIgnoreAsciiCase ext e

/-- The suffix of `path` starting at its last `'.'` is `.ipa` up to letter case. -/
def HasIpaSuffix (path : List Nat) : Prop :=
  ∃ ext, HasExtension path ext ∧ eqIgnoreAsciiCase (dotChar :: ext) litDotIpa

/-- Some row of the signature table matches the content at offset 0. -/
abbrev SignatureMatches (content : List Nat) : Prop :=
  ∃ sig ∈ magicSignatures, sig.bytes <+: content

/-- The bytes at offsets 4..7 of the content are the marker `ftyp`. -/
abbrev FtypAtOffset4 (content : List Nat) : Prop :=
  (content.drop 4).take 4 = litFtyp

/-- A byte the text heuristic accepts: at least 32, or tab, newline, carriage return. -/
abbrev IsTextByte (b : Nat) : Prop := 32 ≤ b ∨ b = 9 ∨ b = 10 ∨ b = 13

/-- The two 32-bit single-architecture magics as they appear in a file. -/
def singleArch32Magics : List (List Nat) :=
  [[0xFE, 0xED, 0xFA, 0xCE], [0xCE, 0xFA, 0xED, 0xFE]]

/-- The two 64-bit single-architecture magics as they appear in a file. -/
def singleArch64Magics : List (List Nat) :=
  [[0xFE, 0xED, 0xFA, 0xCF], [0xCF, 0xFA, 0xED, 0xFE]]

/-- The four fat-binary magics as they appear in a file. -/
def fatMagics : List (List Nat) :=
  [[0xCA, 0xFE, 0xBA, 0xBE], [0xBE, 0xBA, 0xFE, 0xCA], [0xCA, 0xFE, 0xBA, 0xBF],
    [0xBF, 0xBA, 0xFE, 0xCA]]

/-- The eight recognised Mach-O and fat magics. -/
def recognisedMagics : List (List Nat) :=
  singleArch32Magics ++ singleArch64Magics ++ fatMagics

/-- The big-endian value of the count field of a fat header, bytes 4..7 of the
file: `b4 * 2^24 + b5 * 2^16 + b6 * 2^8 + b7`. -/
def fatCountField (content : List Nat) : Nat :=
  match content.drop 4 with
  | b4 :: b5 :: b6 :: b7 :: _ => b4 * 2 ^ 24 + b5 * 2 ^ 16 + b6 * 2 ^ 8 + b7
  | _ => 0

/-- Every byte of the content is a byte. -/
abbrev IsByteString (content : List Nat) : Prop := ∀ b ∈ content, b < 256

/-- The inputs on which the analyzer reports a valid image without a positive
architecture count: a readable file that starts with a fat magic and either is
shorter than the 8-byte fat header or has a count field that is zero or does
not fit a positive 32-bit `int`. -/
def FatCountException (fs : FileSystem) (machoPath : Option (List Nat)) : Prop :=
  ∃ p content, machoPath = some p ∧ fs p = FileNode.regular content ∧
    content.take 4 ∈ fatMagics ∧
    (content.length < 8 ∨ fatCountField content = 0 ∨ 2 ^ 31 ≤ fatCountField content)

/-- Two paths have the same extension up to letter case: neither contains a
`'.'`, or the texts after their last `'.'` are equal up to ASCII letter case. -/
def SameExtension (p1 p2 : List Nat) : Prop :=
  (dotChar ∉ p1 ∧ dotChar ∉ p2) ∨
    ∃ e1 e2, HasExtension p1 e1 ∧ HasExtension p2 e2 ∧ eqIgnoreAsciiCase e1 e2

/-! ## Streams (`std::ifstream`) -/

/-- An open `std::ifstream` in binary mode: the bytes not yet read and whether
the stream is still good (`operator bool`). -/
structure IfStream where
  rest : List Nat
  good : Bool
  deriving DecidableEq, Repr

/-- The call `file.read(buffer, n)`: returns the bytes stored (`gcount()` is
their number) and the stream afterwards. A good stream with at least `n` bytes
left delivers `n` bytes and stays good; with fewer bytes left it delivers them
all and fails (`eofbit | failbit`); a failed stream delivers nothing. -/
def IfStream.read (s : IfStream) (n : Nat) : List Nat × IfStream :=
  if s.good then
    if n ≤ s.rest.length then (s.rest.take n, { rest := s.rest.drop n, good := true })
    else (s.rest, { rest := [], good := false })
  else ([], s)

/-- The stream that `std::ifstream file(path, std::ios::binary)` opens for
hashing: `none` when `is_open()` is false; a node that cannot be read is a
stream whose first `read` fails with no byte delivered. -/
def openForHashing (fs : FileSystem) (path : List Nat) : Option IfStream :=
  match fs path with
  | FileNode.absent => none
  | FileNode.unreadable => some { rest := [], good := true }
  | FileNode.regular content => some { rest := content, good := true }

/-! ## Hashing (`FilesEngine.cpp` lines 188-244) -/

/-- A CommonCrypto digest (`CC_MD5`, `CC_SHA1`, `CC_SHA256`): the context type
with its `Init`, `Update` and `Final` operations. The library is outside the
repository, so the three digests are parameters of the engine. -/
structure DigestAlgorithm where
  Context : Type
  init : Context
  update : Context → List Nat → Context
  final : Context → List Nat

/-- The constant `CC_MD5_DIGEST_LENGTH` of `<CommonCrypto/CommonDigest.h>`. -/
def CC_MD5_DIGEST_LENGTH : Nat := 16

/-- The constant `CC_SHA1_DIGEST_LENGTH` of `<CommonCrypto/CommonDigest.h>`. -/
def CC_SHA1_DIGEST_LENGTH : Nat := 20

/-- The constant `CC_SHA256_DIGEST_LENGTH` of `<CommonCrypto/CommonDigest.h>`. -/
def CC_SHA256_DIGEST_LENGTH : Nat := 32

/-- The `HashResult` record of `FilesEngine.h`: each `char[]` field is the C
string it holds. -/
structure HashResult where
  md5 : List Nat
  sha1 : List Nat
  sha256 : List Nat
  deriving DecidableEq, Repr

/-- The value of `HashResult result = {0}`. -/
def HashResult.zero : HashResult := { md5 := [], sha1 := [], sha256 := [] }

/-- The lowercase hexadecimal digit of a value below 16, as printed by `%x`. -/
def hexDigitLower (n : Nat) : Nat := if n < 10 then 48 + n else 87 + n

/-- The uppercase hexadecimal digit of a value below 16, as printed by `%X`. -/
def hexDigitUpper (n : Nat) : Nat := if n < 10 then 48 + n else 55 + n

/-- The loops `for (i...) sprintf(out + i * 2, "%02x", digest[i])` (lines
231-241): each `unsigned char` of the digest becomes two lowercase hexadecimal
digits, high nibble first, and the last `sprintf` leaves the terminator. -/
def hexString : List Nat → List Nat
  | [] => []
  | b :: rest => hexDigitLower (b / 16) :: hexDigitLower (b % 16) :: hexString rest

/-- The read loop of `calculateHashes` (lines 213-218):
`while (file.read(buffer, 8192) || file.gcount() > 0)` feeds every chunk read to
the three contexts. `none` means the fuel ran out before the loop ended. -/
def hashLoop (md5 sha1 sha256 : DigestAlgorithm) :
    Nat → IfStream → md5.Context × sha1.Context × sha256.Context →
    Option (md5.Context × sha1.Context × sha256.Context)
  | 0, _, _ => none
  | fuel + 1, file, ctx =>
    if (file.read 8192).2.good = true ∨ (file.read 8192).1.length > 0 then
      hashLoop md5 sha1 sha256 fuel (file.read 8192).2
        (md5.update ctx.1 (file.read 8192).1, sha1.update ctx.2.1 (file.read 8192).1,
          sha256.update ctx.2.2 (file.read 8192).1)
    else some ctx

/-- The function `calculateHashes(filePath)`: `none` as path is the null
pointer. The read loop gets one round per 8192-byte chunk plus two, which is
enough for it to end; the result is `none` only if it did not. -/
def calculateHashes (md5 sha1 sha256 : DigestAlgorithm) (fs : FileSystem)
    (filePath : Option (List Nat)) (lastErrorMessage : List Nat) :
    Option (HashResult × List Nat) :=
  match filePath with
  | none => some (HashResult.zero, setError (cstr "Invalid file path"))
  | some p =>
    match openForHashing fs p with
    | none => some (HashResult.zero, setError (cstr "Cannot open file for hashing: " ++ p))
    | some file =>
      (hashLoop md5 sha1 sha256 (file.rest.length / 8192 + 2) file
          (md5.init, sha1.init, sha256.init)).map
        (fun ctx =>
          ({ md5 := hexString ((md5.final ctx.1).take CC_MD5_DIGEST_LENGTH),
             sha1 := hexString ((sha1.final ctx.2.1).take CC_SHA1_DIGEST_LENGTH),
             sha256 := hexString ((sha256.final ctx.2.2).take CC_SHA256_DIGEST_LENGTH) },
            lastErrorMessage))

/-! ## Integrity check (`FilesEngine.cpp` lines 568-580) -/

/-- The function `checkIntegrity(filePath, expectedHash)`: `none` as an argument
is the null pointer. Returns the verdict and the new `lastErrorMessage`. -/
def checkIntegrity (md5 sha1 sha256 : DigestAlgorithm) (fs : FileSystem)
    (filePath expectedHash : Option (List Nat)) (lastErrorMessage : List Nat) :
    Option (Bool × List Nat) :=
  match filePath, expectedHash with
  | some p, some expected =>
    (calculateHashes md5 sha1 sha256 fs (some p) lastErrorMessage).map
      (fun r => (decide (strcasecmp r.1.sha256 expected = 0), r.2))
  | _, _ => some (false, setError (cstr "Invalid parameters for integrity check"))

/-! ## Vocabulary of the specification: hexadecimal strings -/

/-- A character of a lowercase hexadecimal string: `0`-`9` or `a`-`f`. -/
abbrev IsLowerHexChar (c : Nat) : Prop := (48 ≤ c ∧ c ≤ 57) ∨ (97 ≤ c ∧ c ≤ 102)

/-- The value of a hexadecimal digit character of either case (0 for any other
character). -/
def hexValue (c : Nat) : Nat :=
  if 48 ≤ c ∧ c ≤ 57 then c - 48
  else if 97 ≤ c ∧ c ≤ 102 then c - 87
  else if 65 ≤ c ∧ c ≤ 70 then c - 55
  else 0

/-- Decoding of a hexadecimal string, two characters per byte. -/
def hexDecode : List Nat → List Nat
  | hi :: lo :: rest => (hexValue hi * 16 + hexValue lo) :: hexDecode rest
  | _ => []

/-- The string `s` is the lowercase hexadecimal form of `digest`: two characters
per byte and nothing else, all of them in `0`-`9`, `a`-`f`, characters `2i` and
`2i+1` being the high and the low nibble of byte `i`, and decoding `s` gives
`digest` back. -/
def IsHexEncodingOf (s digest : List Nat) : Prop :=
  s.length = 2 * digest.length ∧
  (∀ c ∈ s, IsLowerHexChar c) ∧
  (∀ i < digest.length,
    s.getD (2 * i) 0 = hexDigitLower (digest.getD i 0 / 16) ∧
    s.getD (2 * i + 1) 0 = hexDigitLower (digest.getD i 0 % 16)) ∧
  hexDecode s = digest

/-- The ASCII upper-casing of a character: `a`..`z` map to `A`..`Z`. -/
def toupper (c : Nat) : Nat := if 97 ≤ c ∧ c ≤ 122 then c - 32 else c

/-- A toy digest of `n` bytes, used to run the engine on concrete inputs: the
context collects the input, the digest is its first `n` bytes padded with `AB`. -/
def toyDigest (n : Nat) : DigestAlgorithm :=
  { Context := List Nat, init := [], update := fun c x => c ++ x,
    final := fun c => (c.map (fun b => b % 256) ++ List.replicate n 0xAB).take n }

/-! ## File comparison (`FilesEngine.cpp` lines 511-566) -/

/-- Subtraction of two `uint64_t` (or `size_t`) values: modulo `2^64`. -/
def subUInt64 (a b : Nat) : Nat := (a % 2 ^ 64 + 2 ^ 64 - b % 2 ^ 64) % 2 ^ 64

/-- The cast `(int64_t)x` of a `uint64_t`: two's complement. -/
def toInt64 (x : Nat) : Int :=
  if x % 2 ^ 64 < 2 ^ 63 then ((x % 2 ^ 64 : Nat) : Int) else ((x % 2 ^ 64 : Nat) : Int) - 2 ^ 64

/-- The expression `std::abs((int64_t)(a - b))` on two `uint64_t` values, stored
back into a `uint64_t`. (`std::abs` is undefined on `INT64_MIN`, which no
difference of file sizes reaches.) -/
def absDifference (a b : Nat) : Nat := (toInt64 (subUInt64 a b)).natAbs % 2 ^ 64

/-- The inner loop of `compareFiles` (lines 556-560) over the `count1` bytes of
the two buffers: `differences++` for every position where they differ. -/
def countDifferences : List Nat → List Nat → Nat → Nat
  | x :: xs, y :: ys, differences =>
    countDifferences xs ys (if x ≠ y then (differences + 1) % 2 ^ 64 else differences)
  | _, _, differences => differences

/-- The loop `while (f1 && f2)` of `compareFiles` (lines 544-561) and the exit
after it (lines 563-565). Returns the function's return value and the value it
assigns to `*diffSize`; `none` means the fuel ran out before the loop ended. -/
def compareLoop : Nat → IfStream → IfStream → Nat → Option (Bool × Nat)
  | 0, _, _, _ => none
  | fuel + 1, f1, f2, differences =>
    if f1.good = true ∧ f2.good = true then
      if (f1.read 8192).1.length ≠ (f2.read 8192).1.length then
        some (false,
          (differences +
            absDifference (f1.read 8192).1.length (f2.read 8192).1.length) % 2 ^ 64)
      else
        compareLoop fuel (f1.read 8192).2 (f2.read 8192).2
          (countDifferences (f1.read 8192).1 (f2.read 8192).1 differences)
    else some (decide (differences = 0), differences)

/-- The body of `compareFiles` once both streams are open on readable files
(lines 527-565): the sizes are compared first, and only equal sizes lead to the
read loop, which gets one round per 8192-byte chunk plus two. -/
def compareStreams (c1 c2 : List Nat) : Option (Bool × Nat) :=
  if c1.length % 2 ^ 64 ≠ c2.length % 2 ^ 64 then
    some (false, absDifference (c1.length % 2 ^ 64) (c2.length % 2 ^ 64))
  else
    compareLoop (c1.length / 8192 + 2) { rest := c1, good := true } { rest := c2, good := true } 0

/-- The function `compareFiles(file1, file2, diffSize)`: `none` as a path is the
null pointer; `diffSize` is `none` for the null pointer and otherwise the value
the caller's variable holds. Returns the return value, the caller's variable
afterwards and the new `lastErrorMessage`. The result is `none` when a stream is
opened on a node that cannot be read (seeking in such a stream is outside the
model) or when the read loop runs out of fuel. -/
def compareFiles (fs : FileSystem) (file1 file2 : Option (List Nat)) (diffSize : Option Nat)
    (lastErrorMessage : List Nat) : Option (Bool × Option Nat × List Nat) :=
  match file1 with
  | none => some (false, diffSize, setError (cstr "Invalid file paths for comparison"))
  | some p1 =>
    match file2 with
    | none => some (false, diffSize, setError (cstr "Invalid file paths for comparison"))
    | some p2 =>
      match fs p1 with
      | FileNode.absent =>
        some (false, diffSize, setError (cstr "Cannot open files for comparison"))
      | FileNode.unreadable =>
        match fs p2 with
        | FileNode.absent =>
          some (false, diffSize, setError (cstr "Cannot open files for comparison"))
        | _ => none
      | FileNode.regular c1 =>
        match fs p2 with
        | FileNode.absent =>
          some (false, diffSize, setError (cstr "Cannot open files for comparison"))
        | FileNode.unreadable => none
        | FileNode.regular c2 =>
          (compareStreams c1 c2).map
            (fun r => (r.1, diffSize.map (fun _ => r.2), lastErrorMessage))

/-- The number of positions at which two byte strings differ. -/
def diffCount (a b : List Nat) : Nat :=
  ((List.zip a b).filter (fun p => decide (p.1 ≠ p.2))).length

/-! ## File info (`FilesEngine.cpp` lines 136-186) -/

/-- The `FileInfo` record of `FilesEngine.h`: each `char[]` field is the C string
it holds. -/
structure FileInfo where
  path : List Nat
  name : List Nat
  type : FileType
  size : Nat
  magicSignature : List Nat
  isDirectory : Bool
  isExecutable : Bool
  isSigned : Bool
  deriving DecidableEq, Repr

/-- The value of `FileInfo info = {0}`. -/
def FileInfo.zero : FileInfo :=
  { path := [], name := [], type := FileType.FileTypeUnknown, size := 0, magicSignature := [],
    isDirectory := false, isExecutable := false, isSigned := false }

/-- What `stat` reports of a path, as far as the engine looks at it: `st_size`,
`S_ISDIR(st_mode)` and `(st_mode & S_IXUSR) != 0`. -/
structure Stat where
  st_size : Nat
  isDir : Bool
  ownerExecutable : Bool
  deriving DecidableEq, Repr

/-- The `stat` system call on every path: `none` when it fails. -/
abbrev StatTable := List Nat → Option Stat

/-- The call `strncpy(dst, src, n)` into a zeroed buffer of `n + 1` bytes: the C
string left in `dst` is the first `n` bytes of `src`. -/
def strncpy (src : List Nat) (n : Nat) : List Nat := src.take n

/-- The character `'/'`. -/
def slashChar : Nat := 47

/-- The file name computed by `getFileInfo` (lines 148-153): the text after the
last `'/'` of the path, or the whole path when it has none. -/
def baseName (filePath : List Nat) : List Nat :=
  match strrchr filePath slashChar with
  | some fileName => fileName.drop 1
  | none => filePath

/-- The preview loop of `getFileInfo` (lines 177-180) over the bytes it visits:
each `snprintf(sig, 4, "%02X ", magic[i])` leaves two uppercase hexadecimal
digits and a space, and the next one overwrites the terminator. -/
def magicPreview : List Nat → List Nat
  | [] => []
  | b :: rest => hexDigitUpper (b / 16) :: hexDigitUpper (b % 16) :: 32 :: magicPreview rest

/-- The magic signature read by `getFileInfo` (lines 169-182): up to 16 bytes are
read, the first 8 of them are shown; nothing is written when the file cannot be
opened or read. -/
def readMagicSignature (fs : FileSystem) (filePath : List Nat) : List Nat :=
  match fs filePath with
  | FileNode.regular content => magicPreview ((content.take 16).take 8)
  | _ => []

/-- The record after the `stat` call of `getFileInfo` (lines 146-163). -/
def statInfo (stat : StatTable) (filePath : List Nat) : FileInfo :=
  match stat filePath with
  | some st =>
    { FileInfo.zero with
      path := strncpy filePath 1023, name := strncpy (baseName filePath) 255,
      size := st.st_size, isDirectory := st.isDir, isExecutable := st.ownerExecutable }
  | none =>
    { FileInfo.zero with
      path := strncpy filePath 1023, name := strncpy (baseName filePath) 255 }

/-- The error message after the `stat` call of `getFileInfo` (lines 157-163). -/
def statError (stat : StatTable) (filePath lastErrorMessage : List Nat) : List Nat :=
  match stat filePath with
  | some _ => lastErrorMessage
  | none => setError (cstr "Cannot stat file: " ++ filePath)

/-- The function `getFileInfo(filePath)`: `none` is the null path. Returns the
record and the new `lastErrorMessage`. -/
def getFileInfo (stat : StatTable) (fs : FileSystem) (filePath : Option (List Nat))
    (lastErrorMessage : List Nat) : FileInfo × List Nat :=
  match filePath with
  | none => (FileInfo.zero, setError (cstr "Invalid file path"))
  | some p =>
    if (statInfo stat p).isDirectory = true then
      (statInfo stat p, statError stat p lastErrorMessage)
    else
      ({ statInfo stat p with
          type := (detectFileType fs (some p) (statError stat p lastErrorMessage)).1,
          magicSignature := readMagicSignature fs p },
        (detectFileType fs (some p) (statError stat p lastErrorMessage)).2)

/-! ## Directory scanning (`FilesEngine.cpp` lines 335-392) -/

/-- The calls `opendir` and `readdir` on every path: `none` when `opendir` fails,
otherwise the `d_name` of the entries in the order `readdir` returns them, the
entries `.` and `..` included. -/
abbrev DirTable := List Nat → Option (List (List Nat))

/-- What a call of `scanDirectory` leaves: the returned pointer (`none` is
`nullptr`, otherwise the array), the caller's `*count` (`none` when the `count`
pointer is null) and the new `lastErrorMessage`. -/
structure ScanResult where
  array : Option (List FileInfo)
  count : Option Int
  err : List Nat
  deriving DecidableEq, Repr

/-- The literal `"."`. -/
def litDot : List Nat := [46]

/-- The literal `".."`. -/
def litDotDot : List Nat := [46, 46]

/-- The `readdir` loop of `scanDirectory` (lines 353-375) over the remaining
entries, with the vector `files` and the error message so far. `sub` is the
recursive call `scanDirectory(fullPath, true, &subCount)`; `none` means that a
recursive call ran out of fuel. -/
def scanEntries (stat : StatTable) (fs : FileSystem)
    (sub : List Nat → List Nat → Option ScanResult) (dirPath : List Nat) (recursive : Bool) :
    List (List Nat) → List FileInfo → List Nat → Option (List FileInfo × List Nat)
  | [], files, err => some (files, err)
  | d_name :: rest, files, err =>
    if d_name = litDot ∨ d_name = litDotDot then
      scanEntries stat fs sub dirPath recursive rest files err
    else
      if recursive = true ∧
          (getFileInfo stat fs (some ((dirPath ++ slashChar :: d_name).take 1023)) err).1.isDirectory
            = true then
        match sub ((dirPath ++ slashChar :: d_name).take 1023)
            (getFileInfo stat fs (some ((dirPath ++ slashChar :: d_name).take 1023)) err).2 with
        | none => none
        | some s =>
          scanEntries stat fs sub dirPath recursive rest
            (match s.array with
              | some subFiles =>
                files ++
                  [(getFileInfo stat fs (some ((dirPath ++ slashChar :: d_name).take 1023)) err).1]
                  ++ subFiles.take (s.count.getD 0).toNat
              | none =>
                files ++
                  [(getFileInfo stat fs (some ((dirPath ++ slashChar :: d_name).take 1023)) err).1])
            s.err
      else
        scanEntries stat fs sub dirPath recursive rest
          (files ++
            [(getFileInfo stat fs (some ((dirPath ++ slashChar :: d_name).take 1023)) err).1])
          (getFileInfo stat fs (some ((dirPath ++ slashChar :: d_name).take 1023)) err).2

/-- The function `scanDirectory(dirPath, recursive, count)`: `none` as `dirPath`
or `count` is the null pointer. The fuel bounds the depth of the recursion,
which the code does not bound; `none` means that it ran out. Allocation is
taken to succeed. -/
def scanDirectory (dirs : DirTable) (stat : StatTable) (fs : FileSystem) :
    Nat → Option (List Nat) → Bool → Option Int → List Nat → Option ScanResult
  | 0, _, _, _, _ => none
  | fuel + 1, dirPath, recursive, count, err =>
    match dirPath with
    | none =>
      some { array := none, count := count,
             err := setError (cstr "Invalid parameters for directory scan") }
    | some d =>
      match count with
      | none =>
        some { array := none, count := none,
               err := setError (cstr "Invalid parameters for directory scan") }
      | some _ =>
        match dirs d with
        | none =>
          some { array := none, count := some 0,
                 err := setError (cstr "Cannot open directory: " ++ d) }
        | some entries =>
          (scanEntries stat fs
              (fun p e => scanDirectory dirs stat fs fuel (some p) true (some 0) e)
              d recursive entries [] err).map
            (fun r =>
              { array := if r.1 = [] then none else some r.1,
                count := some (toInt32 r.1.length),
                err := r.2 })

/-! ## Vocabulary of the specification: the magic preview -/

/-- Decoding of a preview, three characters per byte: two hexadecimal digits and
the character that follows them. -/
def decodePreview : List Nat → List Nat
  | hi :: lo :: _ :: rest => (hexValue hi * 16 + hexValue lo) :: decodePreview rest
  | _ => []

/-- The string `s` is the preview of `bytes`: one group per byte and nothing
else, group `i` being the two uppercase hexadecimal digits of byte `i` (high
nibble first) followed by one space, and decoding the groups gives `bytes`
back. -/
def IsHexPreviewOf (s bytes : List Nat) : Prop :=
  s.length = 3 * bytes.length ∧
  (∀ i < bytes.length,
    s.getD (3 * i) 0 = hexDigitUpper (bytes.getD i 0 / 16) ∧
    s.getD (3 * i + 1) 0 = hexDigitUpper (bytes.getD i 0 % 16) ∧
    s.getD (3 * i + 2) 0 = 32) ∧
  decodePreview s = bytes

/-! ## Vocabulary of the specification: directory trees -/

/-- A finite directory tree: the entries of a directory in the order of its
listing, each subdirectory carrying the listing of its own entries. The
pseudo-entries `.` (`dots false`) and `..` (`dots true`) stand where the listing
returns them. -/
inductive Listing
  | nil
  | dots (parent : Bool) (rest : Listing)
  | file (name : List Nat) (rest : Listing)
  | dir (name : List Nat) (children : Listing) (rest : Listing)

/-- The `d_name` sequence that `readdir` returns for a listing. -/
def Listing.names : Listing → List (List Nat)
  | Listing.nil => []
  | Listing.dots parent rest => (if parent then litDotDot else litDot) :: rest.names
  | Listing.file name rest => name :: rest.names
  | Listing.dir name _ rest => name :: rest.names

/-- The depth of nesting of subdirectories in a listing. -/
def Listing.depth : Listing → Nat
  | Listing.nil => 0
  | Listing.dots _ rest => rest.depth
  | Listing.file _ rest => rest.depth
  | Listing.dir _ children rest => max (children.depth + 1) rest.depth

/-- The number `N` of files in a tree, at every depth. -/
def Listing.countFiles : Listing → Nat
  | Listing.nil => 0
  | Listing.dots _ rest => rest.countFiles
  | Listing.file _ rest => rest.countFiles + 1
  | Listing.dir _ children rest => children.countFiles + rest.countFiles

/-- The number `M` of subdirectories in a tree, at every depth. -/
def Listing.countDirs : Listing → Nat
  | Listing.nil => 0
  | Listing.dots _ rest => rest.countDirs
  | Listing.file _ rest => rest.countDirs
  | Listing.dir _ children rest => children.countDirs + rest.countDirs + 1

/-- The paths of the files and subdirectories of a tree rooted at `dirPath`, in
pre-order: every entry in listing order, a subdirectory being immediately
followed by the block of the paths of its own tree; no path for `.` and `..`. -/
def Listing.paths : Listing → List Nat → List (List Nat)
  | Listing.nil, _ => []
  | Listing.dots _ rest, dirPath => rest.paths dirPath
  | Listing.file name rest, dirPath => (dirPath ++ slashChar :: name) :: rest.paths dirPath
  | Listing.dir name children rest, dirPath =>
    (dirPath ++ slashChar :: name) ::
      (children.paths (dirPath ++ slashChar :: name) ++ rest.paths dirPath)

/-- The file system holds the tree `tree` below `dirPath`: no entry is named `.`
or `..`, no path exceeds the 1023 bytes that `fullPath` can hold, `stat` reports
a directory exactly for the subdirectories, and every subdirectory can be opened
and lists its own entries. -/
def Realizes (dirs : DirTable) (stat : StatTable) : Listing → List Nat → Prop
  | Listing.nil, _ => True
  | Listing.dots _ rest, dirPath => Realizes dirs stat rest dirPath
  | Listing.file name rest, dirPath =>
    name ≠ litDot ∧ name ≠ litDotDot ∧ (dirPath ++ slashChar :: name).length ≤ 1023 ∧
    (∀ st, stat (dirPath ++ slashChar :: name) = some st → st.isDir = false) ∧
    Realizes dirs stat rest dirPath
  | Listing.dir name children rest, dirPath =>
    name ≠ litDot ∧ name ≠ litDotDot ∧ (dirPath ++ slashChar :: name).length ≤ 1023 ∧
    (∃ st, stat (dirPath ++ slashChar :: name) = some st ∧ st.isDir = true) ∧
    dirs (dirPath ++ slashChar :: name) = some children.names ∧
    Realizes dirs stat children (dirPath ++ slashChar :: name) ∧
    Realizes dirs stat rest dirPath

/-- The records of the files and subdirectories of a tree, in pre-order: the
result of `getFileInfo` on each path of `Listing.paths`. -/
def scanRecords (stat : StatTable) (fs : FileSystem) (tree : Listing) (dirPath : List Nat) :
    List FileInfo :=
  (tree.paths dirPath).map (fun p => (getFileInfo stat fs (some p) []).1)

/-- A small file system used to run the scanner: the directory `d` lists `.`,
the file `a`, the subdirectory `s`, `..` and the file `b`; `d/s` lists the file
`c` and `.`. -/
def exampleDirs : DirTable := fun p =>
  if p = [100] then some [[46], [97], [115], [46, 46], [98]]
  else if p = [100, 47, 115] then some [[99], [46]]
  else none

/-- The `stat` results of the small file system. -/
def exampleStat : StatTable := fun p =>
  if p = [100, 47, 115] then some { st_size := 64, isDir := true, ownerExecutable := true }
  else if p = [100, 47, 97] then some { st_size := 3, isDir := false, ownerExecutable := false }
  else none

/-- The file contents of the small file system. -/
def exampleFiles : FileSystem := fun p =>
  if p = [100, 47, 97] then FileNode.regular [0xAB, 0, 10]
  else if p = [100, 47, 115, 47, 99] then FileNode.regular [104, 105]
  else if p = [100, 47, 115] then FileNode.unreadable
  else FileNode.absent

/-- The tree of the small file system below `d`. -/
def exampleTree : Listing :=
  Listing.dots false
    (Listing.file [97]
      (Listing.dir [115] (Listing.file [99] (Listing.dots false Listing.nil))
        (Listing.dots true (Listing.file [98] Listing.nil))))

/-! ## Lemmas on the C library model -/

theorem tolower_ne_zero {c : Nat} (h : c ≠ 0) : tolower c ≠ 0 := by
  unfold tolower; split <;> omega

theorem strcasecmp_eq_zero_iff (a b : List Nat) (ha : IsCString a) (hb : IsCString b) :
    strcasecmp a b = 0 ↔ eqIgnoreAsciiCase a b := by
  induction a generalizing b with
  | nil =>
    cases b with
    | nil => simp [strcasecmp, eqIgnoreAsciiCase]
    | cons y ys =>
      have hy := tolower_ne_zero (hb y (by simp))
      simp [strcasecmp, eqIgnoreAsciiCase]; omega
  | cons x xs ih =>
    cases b with
    | nil =>
      have hx := tolower_ne_zero (ha x (by simp))
      simp [strcasecmp, eqIgnoreAsciiCase]; omega
    | cons y ys =>
      have ih2 := ih ys (fun c hc => ha c (by simp [hc])) (fun c hc => hb c (by simp [hc]))
      by_cases h : tolower x = tolower y
      · simp only [strcasecmp, h, if_true, eqIgnoreAsciiCase, List.map_cons, List.cons.injEq,
          true_and]
        exact ih2
      · simp only [strcasecmp, h, if_false, eqIgnoreAsciiCase, List.map_cons, List.cons.injEq,
          false_and, iff_false]
        omega

theorem memcmp_eq_zero_iff (a b : List Nat) (n : Nat) (ha : n ≤ a.length) (hb : n ≤ b.length) :
    memcmp a b n = 0 ↔ a.take n = b.take n := by
  induction n generalizing a b with
  | zero => simp [memcmp]
  | succ n ih =>
    match a, b, ha, hb with
    | x :: xs, y :: ys, ha, hb =>
      have ih2 := ih xs ys (by simpa using ha) (by simpa using hb)
      by_cases h : x = y
      · simp only [memcmp, h, if_true, List.take_succ_cons, List.cons.injEq, true_and]
        exact ih2
      · simp only [memcmp, h, if_false, List.take_succ_cons, List.cons.injEq, false_and,
          iff_false]
        omega

theorem strrchr_eq_none_iff (s : List Nat) (c : Nat) : strrchr s c = none ↔ c ∉ s := by
  induction s with
  | nil => simp [strrchr]
  | cons x xs ih =>
    simp only [strrchr, List.mem_cons, not_or]
    cases hr : strrchr xs c with
    | some r =>
      have : ¬ (c ∉ xs) := fun h => by simp [ih.mpr h] at hr
      simp [this]
    | none =>
      have hc := ih.mp hr
      by_cases hx : x = c
      · simp [hx]
      · simp [hx, hc]; exact fun h => hx h.symm

theorem strrchr_append (pre post : List Nat) (c : Nat) (h : c ∉ post) :
    strrchr (pre ++ c :: post) c = some (c :: post) := by
  induction pre with
  | nil => simp [strrchr, (strrchr_eq_none_iff post c).mpr h]
  | cons x xs ih => simp [strrchr, ih]

theorem strrchr_eq_some (s r : List Nat) (c : Nat) (h : strrchr s c = some r) :
    ∃ pre post, s = pre ++ c :: post ∧ c ∉ post ∧ r = c :: post := by
  induction s with
  | nil => simp [strrchr] at h
  | cons x xs ih =>
    simp only [strrchr] at h
    cases hr : strrchr xs c with
    | some r2 =>
      rw [hr] at h
      simp only [Option.some.injEq] at h
      obtain ⟨pre, post, h1, h2, h3⟩ := ih (by rw [hr, h])
      exact ⟨x :: pre, post, by simp [h1], h2, h3⟩
    | none =>
      rw [hr] at h
      by_cases hx : x = c
      · simp only [hx, if_true, Option.some.injEq] at h
        exact ⟨[], xs, by simp [hx], (strrchr_eq_none_iff xs c).mp hr, h.symm⟩
      · simp [hx] at h

/-! ## The signature loop -/

/-- Every row of the table records the true length of its pattern, and every
pattern fits in the 32-byte read buffer. -/
theorem magicSignatures_wellFormed :
    ∀ sig ∈ magicSignatures, sig.length = sig.bytes.length ∧ sig.length ≤ 32 := by
  decide

/-- No pattern of the table is the start of another row's pattern. -/
theorem magicSignatures_incomparable :
    ∀ s ∈ magicSignatures, ∀ t ∈ magicSignatures, s.bytes <+: t.bytes ∨ t.bytes <+: s.bytes → s = t := by
  decide

/-- The test of the signature loop on the bytes read from a file is the statement
that the pattern starts the file. -/
theorem signature_test_iff (content : List Nat) (sig : MagicSignature)
    (hlen : sig.length = sig.bytes.length) (h32 : sig.length ≤ 32) :
    ((content.take 32).length ≥ sig.length ∧ memcmp (content.take 32) sig.bytes sig.length = 0)
      ↔ sig.bytes <+: content := by
  constructor
  · rintro ⟨h1, h2⟩
    rw [memcmp_eq_zero_iff _ _ _ h1 (by omega)] at h2
    rw [List.take_take, hlen, List.take_length, ← hlen, Nat.min_eq_left h32, hlen] at h2
    rw [← h2]
    exact List.take_prefix _ _
  · rintro ⟨r, rfl⟩
    have h1 : ((sig.bytes ++ r).take 32).length ≥ sig.length := by
      simp only [List.length_take, List.length_append]; omega
    refine ⟨h1, ?_⟩
    rw [memcmp_eq_zero_iff _ _ _ h1 (by omega)]
    rw [List.take_take, hlen, List.take_length, ← hlen, Nat.min_eq_left h32, hlen]
    simp

/-- When no row's pattern starts the file, the loop runs to its end. -/
theorem matchSignature_eq_none (path content : List Nat) (tbl : List MagicSignature)
    (hwf : ∀ sig ∈ tbl, sig.length = sig.bytes.length ∧ sig.length ≤ 32)
    (hno : ∀ sig ∈ tbl, ¬ sig.bytes <+: content) :
    matchSignature path (content.take 32) tbl = none := by
  induction tbl with
  | nil => rfl
  | cons s rest ih =>
    have hs := hwf s (by simp)
    have hn : ¬ ((content.take 32).length ≥ s.length ∧
        memcmp (content.take 32) s.bytes s.length = 0) := by
      rw [signature_test_iff content s hs.1 hs.2]
      exact hno s (by simp)
    simp only [matchSignature]
    rw [if_neg hn]
    exact ih (fun t ht => hwf t (by simp [ht])) (fun t ht => hno t (by simp [ht]))

/-- When the only row whose pattern starts the file is `sig`, the loop stops at
`sig`. -/
theorem matchSignature_eq_some (path content : List Nat) (tbl : List MagicSignature)
    (sig : MagicSignature)
    (hwf : ∀ s ∈ tbl, s.length = s.bytes.length ∧ s.length ≤ 32)
    (hmem : sig ∈ tbl) (hpre : sig.bytes <+: content)
    (honly : ∀ s ∈ tbl, s.bytes <+: content → s = sig) :
    matchSignature path (content.take 32) tbl = some (matchedType path sig) := by
  induction tbl with
  | nil => simp at hmem
  | cons s rest ih =>
    have hs := hwf s (by simp)
    by_cases hsp : s.bytes <+: content
    · have hc := (signature_test_iff content s hs.1 hs.2).mpr hsp
      have := honly s (by simp) hsp
      subst this
      simp only [matchSignature]
      rw [if_pos hc]
    · have hn : ¬ ((content.take 32).length ≥ s.length ∧
          memcmp (content.take 32) s.bytes s.length = 0) := by
        rw [signature_test_iff content s hs.1 hs.2]; exact hsp
      simp only [matchSignature]
      rw [if_neg hn]
      have hmem2 : sig ∈ rest := by
        rcases List.mem_cons.mp hmem with h | h
        · exact absurd (h ▸ hpre) hsp
        · exact h
      exact ih (fun t ht => hwf t (by simp [ht])) hmem2 (fun t ht => honly t (by simp [ht]))

/-- On a file that starts with the pattern of a table row, the loop returns that
row's refined type. -/
theorem matchSignature_of_mem (path content : List Nat) (sig : MagicSignature)
    (hmem : sig ∈ magicSignatures) (hpre : sig.bytes <+: content) :
    matchSignature path (content.take 32) magicSignatures = some (matchedType path sig) := by
  apply matchSignature_eq_some path content magicSignatures sig magicSignatures_wellFormed
    hmem hpre
  intro s hs hsp
  exact magicSignatures_incomparable s hs sig hmem ( List.prefix_or_prefix_of_prefix hsp hpre)

/-! ## Extensions -/

theorem strrchr_of_hasExtension {path ext : List Nat} (h : HasExtension path ext) :
    strrchr path dotChar = some (dotChar :: ext) := by
  obtain ⟨pre, rfl, hdot⟩ := h
  exact strrchr_append pre ext dotChar hdot

theorem hasExtension_of_strrchr {path r : List Nat} (h : strrchr path dotChar = some r) :
    ∃ ext, r = dotChar :: ext ∧ HasExtension path ext := by
  obtain ⟨pre, post, h1, h2, h3⟩ := strrchr_eq_some path r dotChar h
  exact ⟨post, h3, pre, h1, h2⟩

theorem isCString_of_hasExtension {path ext : List Nat} (hpath : IsCString path)
    (h : HasExtension path ext) : IsCString ext := by
  obtain ⟨pre, rfl, _⟩ := h
  intro c hc
  exact hpath c (by simp [hc])

/-- The refinement applied to a matching row, in the words of the specification. -/
theorem matchedType_eq (path : List Nat) (sig : MagicSignature) (hpath : IsCString path) :
    (sig.type = FileType.FileTypeArchive ∧ HasIpaSuffix path →
        matchedType path sig = FileType.FileTypeIPA) ∧
    (¬ (sig.type = FileType.FileTypeArchive ∧ HasIpaSuffix path) →
        matchedType path sig = sig.type) := by
  have hlit : IsCString litDotIpa := by decide
  constructor
  · rintro ⟨harch, ext, hext, heq⟩
    have hc : IsCString (dotChar :: ext) := by
      intro c hc
      rcases List.mem_cons.mp hc with h | h
      · rw [h]; decide
      · exact isCString_of_hasExtension hpath hext c h
    simp only [matchedType, harch, if_true, strrchr_of_hasExtension hext]
    rw [if_pos ((strcasecmp_eq_zero_iff _ _ hc hlit).mpr heq)]
  · intro hn
    unfold matchedType
    split
    · rename_i harch
      cases hr : strrchr path dotChar with
      | none => rfl
      | some r =>
        obtain ⟨ext, rfl, hext⟩ := hasExtension_of_strrchr hr
        have hc : IsCString (dotChar :: ext) := by
          intro c hc
          rcases List.mem_cons.mp hc with h | h
          · rw [h]; decide
          · exact isCString_of_hasExtension hpath hext c h
        have hne : ¬ strcasecmp (dotChar :: ext) litDotIpa = 0 := by
          rw [strcasecmp_eq_zero_iff _ _ hc hlit]
          exact fun heq => hn ⟨harch, ext, hext, heq⟩
        simp only [if_neg hne]
    · rfl

/-- C1: on a readable file whose content starts with the pattern of a row of
`magicSignatures`, `detectFileType` returns that row's type for every path,
except that a row of type Archive (exactly the three `PK` patterns) yields
`FileTypeIPA` when the path's suffix from its last `'.'` is `.ipa` up to letter
case. No earlier row pre-empts the row, and the extension never overrides a
matched non-ZIP signature. -/
theorem C1_signature_decides_type (fs : FileSystem) (path content err : List Nat)
    (sig : MagicSignature) (hpath : IsCString path)
    (hfile : fs path = FileNode.regular content)
    (hsig : sig ∈ magicSignatures) (hpre : sig.bytes <+: content) :
    (sig.type = FileType.FileTypeArchive ↔
        sig.bytes ∈ [[0x50, 0x4B, 0x03, 0x04], [0x50, 0x4B, 0x05, 0x06],
          [0x50, 0x4B, 0x07, 0x08]]) ∧
    (sig.type = FileType.FileTypeArchive ∧ HasIpaSuffix path →
        (detectFileType fs (some path) err).1 = FileType.FileTypeIPA) ∧
    (¬ (sig.type = FileType.FileTypeArchive ∧ HasIpaSuffix path) →
        (detectFileType fs (some path) err).1 = sig.type) := by
  have hzip : ∀ s ∈ magicSignatures, (s.type = FileType.FileTypeArchive ↔
      s.bytes ∈ [[0x50, 0x4B, 0x03, 0x04], [0x50, 0x4B, 0x05, 0x06],
        [0x50, 0x4B, 0x07, 0x08]]) := by decide
  have hres : (detectFileType fs (some path) err).1 = matchedType path sig := by
    simp only [detectFileType, hfile, classifyBuffer, matchSignature_of_mem path content sig hsig hpre]
  rw [hres]
  exact ⟨hzip sig hsig, (matchedType_eq path sig hpath).1, (matchedType_eq path sig hpath).2⟩

/-- C1 at a concrete input: a ZIP file named `a.ipa` is an IPA. -/
theorem C1_signature_decides_type_witness :
    (detectFileType (fun _ => FileNode.regular [0x50, 0x4B, 0x03, 0x04, 0x14, 0x00])
      (some [97, 46, 105, 112, 97]) []).1 = FileType.FileTypeIPA :=
  (C1_signature_decides_type (fun _ => FileNode.regular [0x50, 0x4B, 0x03, 0x04, 0x14, 0x00])
    [97, 46, 105, 112, 97] [0x50, 0x4B, 0x03, 0x04, 0x14, 0x00] []
    ⟨[0x50, 0x4B, 0x03, 0x04], 4, FileType.FileTypeArchive⟩
    (by decide) rfl (by decide) ⟨[0x14, 0x00], rfl⟩).2.1
    ⟨rfl, [105, 112, 97], ⟨[97], rfl, by decide⟩, by decide⟩

/-! ## Mach-O analysis -/

/-- The bytes of a word loaded on a little-endian host. -/
theorem bytes_of_littleEndian (b0 b1 b2 b3 n : Nat)
    (h0 : b0 < 256) (h1 : b1 < 256) (h2 : b2 < 256) (h3 : b3 < 256)
    (h : b0 + b1 * 2 ^ 8 + b2 * 2 ^ 16 + b3 * 2 ^ 24 = n) :
    [b0, b1, b2, b3] = [n % 256, n / 2 ^ 8 % 256, n / 2 ^ 16 % 256, n / 2 ^ 24 % 256] := by
  have e0 : b0 = n % 256 := by omega
  have e1 : b1 = n / 2 ^ 8 % 256 := by omega
  have e2 : b2 = n / 2 ^ 16 % 256 := by omega
  have e3 : b3 = n / 2 ^ 24 % 256 := by omega
  rw [← e0, ← e1, ← e2, ← e3]

/-- The bytes of a word loaded on a big-endian host. -/
theorem bytes_of_bigEndian (b0 b1 b2 b3 n : Nat)
    (h0 : b0 < 256) (h1 : b1 < 256) (h2 : b2 < 256) (h3 : b3 < 256)
    (h : b0 * 2 ^ 24 + b1 * 2 ^ 16 + b2 * 2 ^ 8 + b3 = n) :
    [b0, b1, b2, b3] = [n / 2 ^ 24 % 256, n / 2 ^ 16 % 256, n / 2 ^ 8 % 256, n % 256] := by
  have e0 : b0 = n / 2 ^ 24 % 256 := by omega
  have e1 : b1 = n / 2 ^ 16 % 256 := by omega
  have e2 : b2 = n / 2 ^ 8 % 256 := by omega
  have e3 : b3 = n % 256 := by omega
  rw [← e0, ← e1, ← e2, ← e3]

/-- The word a host loads from four bytes is one of the eight constants of the
`switch` only when the four bytes are one of the eight recognised magics. -/
theorem loadUInt32_recognised (host : Bool) (b0 b1 b2 b3 : Nat)
    (h0 : b0 < 256) (h1 : b1 < 256) (h2 : b2 < 256) (h3 : b3 < 256)
    (h : loadUInt32 host [b0, b1, b2, b3] ∈
      [MH_MAGIC, MH_CIGAM, MH_MAGIC_64, MH_CIGAM_64, FAT_MAGIC, FAT_CIGAM, FAT_MAGIC_64,
        FAT_CIGAM_64]) :
    [b0, b1, b2, b3] ∈ recognisedMagics := by
  cases host
  · simp only [loadUInt32, MH_MAGIC, MH_CIGAM, MH_MAGIC_64, MH_CIGAM_64, FAT_MAGIC, FAT_CIGAM,
      FAT_MAGIC_64, FAT_CIGAM_64, List.mem_cons, List.mem_singleton, List.not_mem_nil, or_false,
      if_false, Bool.false_eq_true] at h
    rcases h with h | h | h | h | h | h | h | h <;>
    · rw [bytes_of_littleEndian b0 b1 b2 b3 _ h0 h1 h2 h3 h]
      decide
  · simp only [loadUInt32, MH_MAGIC, MH_CIGAM, MH_MAGIC_64, MH_CIGAM_64, FAT_MAGIC, FAT_CIGAM,
      FAT_MAGIC_64, FAT_CIGAM_64, List.mem_cons, List.mem_singleton, List.not_mem_nil, or_false,
      if_true] at h
    rcases h with h | h | h | h | h | h | h | h <;>
    · rw [bytes_of_bigEndian b0 b1 b2 b3 _ h0 h1 h2 h3 h]
      decide

/-- The count field of the fat header as the code decodes it is its big-endian
value, whatever the byte order of the host. -/
theorem swap_load_bigEndian (host : Bool) (b4 b5 b6 b7 : Nat)
    (h4 : b4 < 256) (h5 : b5 < 256) (h6 : b6 < 256) (h7 : b7 < 256) :
    OSSwapBigToHostInt32 host (loadUInt32 host [b4, b5, b6, b7]) =
      b4 * 2 ^ 24 + b5 * 2 ^ 16 + b6 * 2 ^ 8 + b7 := by
  cases host
  · simp only [OSSwapBigToHostInt32, loadUInt32, OSSwapInt32, if_false, Bool.false_eq_true]
    omega
  · simp only [OSSwapBigToHostInt32, loadUInt32, if_true]

theorem toInt32_of_lt (x : Nat) (h : x < 2 ^ 32) :
    toInt32 x = if x < 2 ^ 31 then (x : Int) else (x : Int) - 2 ^ 32 := by
  unfold toInt32
  rw [Nat.mod_eq_of_lt h]

/-- The record returned for a single-architecture 32-bit image. -/
theorem analyzeMagic_arm (host : Bool) (m content : List Nat) (hm : m ∈ singleArch32Magics) :
    analyzeMagic host (loadUInt32 host m) content =
      ({ MachOInfo.zero with
          isValid := true, is64Bit := false, architectureCount := 1,
          architectures := "arm" }, false) := by
  simp only [singleArch32Magics, List.mem_cons, List.mem_singleton, List.not_mem_nil,
    or_false] at hm
  rcases hm with rfl | rfl <;> cases host <;>
    simp [analyzeMagic, loadUInt32, MH_MAGIC, MH_CIGAM]

/-- The record returned for a single-architecture 64-bit image. -/
theorem analyzeMagic_arm64 (host : Bool) (m content : List Nat) (hm : m ∈ singleArch64Magics) :
    analyzeMagic host (loadUInt32 host m) content =
      ({ MachOInfo.zero with
          isValid := true, is64Bit := true, architectureCount := 1,
          architectures := "arm64" }, false) := by
  simp only [singleArch64Magics, List.mem_cons, List.mem_singleton, List.not_mem_nil,
    or_false] at hm
  rcases hm with rfl | rfl <;> cases host <;>
    simp [analyzeMagic, loadUInt32, MH_MAGIC, MH_CIGAM, MH_MAGIC_64, MH_CIGAM_64]

/-- The record returned for a fat image: the count is set only when the 8-byte
header can be read. -/
theorem analyzeMagic_fat (host : Bool) (m content : List Nat) (hm : m ∈ fatMagics) :
    analyzeMagic host (loadUInt32 host m) content =
      if (content.take 8).length = 8 then
        ({ MachOInfo.zero with
            isValid := true,
            architectureCount :=
              toInt32 (OSSwapBigToHostInt32 host (loadUInt32 host ((content.take 8).drop 4))),
            architectures := "universal" }, false)
      else ({ MachOInfo.zero with isValid := true }, false) := by
  simp only [fatMagics, List.mem_cons, List.mem_singleton, List.not_mem_nil,
    or_false] at hm
  rcases hm with rfl | rfl | rfl | rfl <;> cases host <;>
    simp [analyzeMagic, loadUInt32, MH_MAGIC, MH_CIGAM, MH_MAGIC_64, MH_CIGAM_64, FAT_MAGIC,
      FAT_CIGAM, FAT_MAGIC_64, FAT_CIGAM_64]

/-- The record returned for any other magic: the zeroed record, and `setError` runs. -/
theorem analyzeMagic_unrecognised (host : Bool) (b0 b1 b2 b3 : Nat) (content : List Nat)
    (h0 : b0 < 256) (h1 : b1 < 256) (h2 : b2 < 256) (h3 : b3 < 256)
    (hm : [b0, b1, b2, b3] ∉ recognisedMagics) :
    analyzeMagic host (loadUInt32 host [b0, b1, b2, b3]) content = (MachOInfo.zero, true) := by
  have hn : loadUInt32 host [b0, b1, b2, b3] ∉
      [MH_MAGIC, MH_CIGAM, MH_MAGIC_64, MH_CIGAM_64, FAT_MAGIC, FAT_CIGAM, FAT_MAGIC_64,
        FAT_CIGAM_64] := fun h => hm (loadUInt32_recognised host b0 b1 b2 b3 h0 h1 h2 h3 h)
  simp only [List.mem_cons, List.mem_singleton, List.not_mem_nil, or_false, not_or] at hn
  obtain ⟨n1, n2, n3, n4, n5, n6, n7, n8⟩ := hn
  simp [analyzeMagic, n1, n2, n3, n4, n5, n6, n7, n8, MachOInfo.zero]

/-- The four bytes read by `analyzeMachO` from a file of at least four bytes. -/
theorem take_four (content : List Nat) (h : 4 ≤ content.length) :
    ∃ b0 b1 b2 b3 rest, content = b0 :: b1 :: b2 :: b3 :: rest := by
  match content, h with
  | b0 :: b1 :: b2 :: b3 :: rest, _ => exact ⟨b0, b1, b2, b3, rest, rfl⟩

/-- The run of `analyzeMachO` on a readable file of at least four bytes. -/
theorem analyzeMachO_regular (host : Bool) (fs : FileSystem) (path content err : List Nat)
    (hfile : fs path = FileNode.regular content) (hlen : 4 ≤ content.length) :
    analyzeMachO host fs (some path) err =
      if (analyzeMagic host (loadUInt32 host (content.take 4)) content).2 then
        ((analyzeMagic host (loadUInt32 host (content.take 4)) content).1,
          setError (cstr "Invalid Mach-O magic number"))
      else ((analyzeMagic host (loadUInt32 host (content.take 4)) content).1, err) := by
  have h4 : (content.take 4).length = 4 := by simp [List.length_take]; omega
  unfold analyzeMachO
  simp only [hfile, h4, ne_eq, not_true_eq_false, if_false]

/-- C2: a readable file that starts with one of the four single-architecture
magics is analysed as valid with one architecture, 32-bit and label `arm` for
`FE ED FA CE` and `CE FA ED FE`, 64-bit and label `arm64` for `FE ED FA CF` and
`CF FA ED FE`, on a little-endian and on a big-endian host alike; no error is
recorded. -/
theorem C2_single_architecture_magics (bigEndianHost : Bool) (fs : FileSystem)
    (path content err : List Nat) (hfile : fs path = FileNode.regular content) :
    ((∃ m ∈ singleArch32Magics, m <+: content) →
      analyzeMachO bigEndianHost fs (some path) err =
        ({ MachOInfo.zero with
            isValid := true, is64Bit := false, architectureCount := 1,
            architectures := "arm" }, err)) ∧
    ((∃ m ∈ singleArch64Magics, m <+: content) →
      analyzeMachO bigEndianHost fs (some path) err =
        ({ MachOInfo.zero with
            isValid := true, is64Bit := true, architectureCount := 1,
            architectures := "arm64" }, err)) := by
  constructor
  · rintro ⟨m, hm, r, rfl⟩
    simp only [singleArch32Magics, List.mem_cons, List.mem_singleton, List.not_mem_nil,
      or_false] at hm
    rcases hm with rfl | rfl <;> cases bigEndianHost <;>
      simp [analyzeMachO, hfile, analyzeMagic, loadUInt32, MH_MAGIC, MH_CIGAM]
  · rintro ⟨m, hm, r, rfl⟩
    simp only [singleArch64Magics, List.mem_cons, List.mem_singleton, List.not_mem_nil,
      or_false] at hm
    rcases hm with rfl | rfl <;> cases bigEndianHost <;>
      simp [analyzeMachO, hfile, analyzeMagic, loadUInt32, MH_MAGIC, MH_CIGAM, MH_MAGIC_64,
        MH_CIGAM_64]

/-- C2 at a concrete input: a byte-swapped 64-bit header on a little-endian host. -/
theorem C2_single_architecture_magics_witness :
    analyzeMachO false (fun _ => FileNode.regular [0xCF, 0xFA, 0xED, 0xFE, 0x0C, 0x00])
        (some [97]) [] =
      ({ MachOInfo.zero with
          isValid := true, is64Bit := true, architectureCount := 1,
          architectures := "arm64" }, []) :=
  (C2_single_architecture_magics false
    (fun _ => FileNode.regular [0xCF, 0xFA, 0xED, 0xFE, 0x0C, 0x00]) [97]
    [0xCF, 0xFA, 0xED, 0xFE, 0x0C, 0x00] [] rfl).2
    ⟨[0xCF, 0xFA, 0xED, 0xFE], by decide, [0x0C, 0x00], rfl⟩

/-- C3 (counterexample): a 4-byte file holding only the fat magic is reported
valid without the label `universal`, and a count field of `80 00 00 00` is
reported as a negative count, not as its big-endian value. -/
theorem C3_counterexample :
    (analyzeMachO false (fun _ => FileNode.regular [0xCA, 0xFE, 0xBA, 0xBE])
        (some [97]) []).1.architectures ≠ "universal" ∧
    (analyzeMachO false (fun _ => FileNode.regular [0xCA, 0xFE, 0xBA, 0xBE, 0x80, 0, 0, 0])
        (some [97]) []).1.architectureCount ≠
      ((0x80 * 2 ^ 24 + 0 * 2 ^ 16 + 0 * 2 ^ 8 + 0 : Nat) : Int) := by
  decide

/-- C3 (amended): on a readable file of at least 8 bytes that starts with one of
the four fat magics, `analyzeMachO` returns a valid record labelled `universal`
whose architecture count is the big-endian value of bytes 4..7 read as a signed
32-bit integer, hence that value itself when it is below `2^31`; the result is
the same on either host byte order and for each of the four magics. -/
theorem C3_fat_architecture_count (bigEndianHost : Bool) (fs : FileSystem)
    (path content err : List Nat) (hfile : fs path = FileNode.regular content)
    (hbytes : IsByteString content) (hmagic : content.take 4 ∈ fatMagics)
    (hlen : 8 ≤ content.length) :
    analyzeMachO bigEndianHost fs (some path) err =
      ({ MachOInfo.zero with
          isValid := true,
          architectureCount :=
            if fatCountField content < 2 ^ 31 then (fatCountField content : Int)
            else (fatCountField content : Int) - 2 ^ 32,
          architectures := "universal" }, err) := by
  match content, hlen with
  | b0 :: b1 :: b2 :: b3 :: b4 :: b5 :: b6 :: b7 :: rest, _ =>
    have h4 : b4 < 256 := hbytes b4 (by simp)
    have h5 : b5 < 256 := hbytes b5 (by simp)
    have h6 : b6 < 256 := hbytes b6 (by simp)
    have h7 : b7 < 256 := hbytes b7 (by simp)
    rw [analyzeMachO_regular bigEndianHost fs path _ err hfile (by simp),
      analyzeMagic_fat bigEndianHost _ _ hmagic]
    have hcount : fatCountField (b0 :: b1 :: b2 :: b3 :: b4 :: b5 :: b6 :: b7 :: rest) =
        b4 * 2 ^ 24 + b5 * 2 ^ 16 + b6 * 2 ^ 8 + b7 := rfl
    have hdrop : List.drop 4 (List.take 8 (b0 :: b1 :: b2 :: b3 :: b4 :: b5 :: b6 :: b7 :: rest))
        = [b4, b5, b6, b7] := by simp
    have hlen8 : (List.take 8 (b0 :: b1 :: b2 :: b3 :: b4 :: b5 :: b6 :: b7 :: rest)).length = 8 := by
      simp
    rw [if_pos hlen8, hdrop, swap_load_bigEndian bigEndianHost b4 b5 b6 b7 h4 h5 h6 h7,
      toInt32_of_lt _ (by omega), hcount]
    simp

/-- C3 (amended) at a concrete input: a 64-bit fat header with two slices. -/
theorem C3_fat_architecture_count_witness :
    analyzeMachO false (fun _ => FileNode.regular [0xCA, 0xFE, 0xBA, 0xBF, 0, 0, 0, 2])
        (some [97]) [] =
      ({ MachOInfo.zero with
          isValid := true, architectureCount := 2, architectures := "universal" }, []) :=
  C3_fat_architecture_count false (fun _ => FileNode.regular [0xCA, 0xFE, 0xBA, 0xBF, 0, 0, 0, 2])
    [97] [0xCA, 0xFE, 0xBA, 0xBF, 0, 0, 0, 2] [] rfl (by decide) (by decide) (by decide)

/-- The run of `analyzeMachO` on a readable file of fewer than four bytes. -/
theorem analyzeMachO_short (host : Bool) (fs : FileSystem) (path content err : List Nat)
    (hfile : fs path = FileNode.regular content) (hlen : content.length < 4) :
    analyzeMachO host fs (some path) err =
      (MachOInfo.zero, setError (cstr "Cannot read magic number")) := by
  have h4 : (content.take 4).length ≠ 4 := by simp only [List.length_take]; omega
  unfold analyzeMachO
  simp only [hfile, h4, ne_eq, not_false_eq_true, if_true]

/-- C4 (counterexample): a fat header whose count field is zero is reported valid
with an architecture count of 0. -/
theorem C4_counterexample :
    ¬ ((analyzeMachO false (fun _ => FileNode.regular [0xCA, 0xFE, 0xBA, 0xBE, 0, 0, 0, 0])
          (some [97]) []).1.isValid = true →
        1 ≤ (analyzeMachO false (fun _ => FileNode.regular [0xCA, 0xFE, 0xBA, 0xBE, 0, 0, 0, 0])
          (some [97]) []).1.architectureCount) := by
  decide

/-- C4 (amended): for every input (null path, path that cannot be opened or
read, file of any length and content), a descriptor with `isValid = true` has
`architectureCount ≥ 1`, except when the file starts with one of the four fat
magics and either holds fewer than 8 bytes or has a big-endian count field
that is 0 or at least `2^31`; with a complete 8-byte header and such a count
field the descriptor is valid with an architecture count below 1. -/
theorem C4_valid_architecture_count (bigEndianHost : Bool) (fs : FileSystem)
    (machoPath : Option (List Nat)) (err : List Nat)
    (hbytes : ∀ p content, fs p = FileNode.regular content → IsByteString content) :
    (¬ FatCountException fs machoPath →
      (analyzeMachO bigEndianHost fs machoPath err).1.isValid = true →
      1 ≤ (analyzeMachO bigEndianHost fs machoPath err).1.architectureCount) ∧
    (∀ p content, machoPath = some p → fs p = FileNode.regular content →
      content.take 4 ∈ fatMagics → 8 ≤ content.length →
      fatCountField content = 0 ∨ 2 ^ 31 ≤ fatCountField content →
      (analyzeMachO bigEndianHost fs machoPath err).1.isValid = true ∧
      (analyzeMachO bigEndianHost fs machoPath err).1.architectureCount < 1) := by
  constructor
  · intro hex hv
    match machoPath with
    | none => simp [analyzeMachO, MachOInfo.zero] at hv
    | some p =>
      cases hfs : fs p with
      | absent => simp [analyzeMachO, hfs, MachOInfo.zero] at hv
      | unreadable => simp [analyzeMachO, hfs, MachOInfo.zero] at hv
      | regular content =>
        by_cases hlen : 4 ≤ content.length
        · obtain ⟨b0, b1, b2, b3, rest, rfl⟩ := take_four content hlen
          have hb := hbytes p _ hfs
          have h0 : b0 < 256 := hb b0 (by simp)
          have h1 : b1 < 256 := hb b1 (by simp)
          have h2 : b2 < 256 := hb b2 (by simp)
          have h3 : b3 < 256 := hb b3 (by simp)
          rw [analyzeMachO_regular bigEndianHost fs p _ err hfs hlen] at hv ⊢
          have ht : List.take 4 (b0 :: b1 :: b2 :: b3 :: rest) = [b0, b1, b2, b3] := by simp
          rw [ht] at hv ⊢
          by_cases hm : [b0, b1, b2, b3] ∈ recognisedMagics
          · simp only [recognisedMagics, List.mem_append] at hm
            rcases hm with (hm | hm) | hm
            · rw [analyzeMagic_arm bigEndianHost _ _ hm]; simp
            · rw [analyzeMagic_arm64 bigEndianHost _ _ hm]; simp
            · rw [analyzeMagic_fat bigEndianHost _ _ hm]
              by_cases h8 : 8 ≤ (b0 :: b1 :: b2 :: b3 :: rest).length
              · match rest, h8 with
                | b4 :: b5 :: b6 :: b7 :: rest2, _ =>
                  have h4 : b4 < 256 := hb b4 (by simp)
                  have h5 : b5 < 256 := hb b5 (by simp)
                  have h6 : b6 < 256 := hb b6 (by simp)
                  have h7 : b7 < 256 := hb b7 (by simp)
                  have hcount : fatCountField (b0 :: b1 :: b2 :: b3 :: b4 :: b5 :: b6 :: b7 :: rest2)
                      = b4 * 2 ^ 24 + b5 * 2 ^ 16 + b6 * 2 ^ 8 + b7 := rfl
                  have hne : ¬ (fatCountField (b0 :: b1 :: b2 :: b3 :: b4 :: b5 :: b6 :: b7 :: rest2) = 0
                      ∨ 2 ^ 31 ≤ fatCountField (b0 :: b1 :: b2 :: b3 :: b4 :: b5 :: b6 :: b7 :: rest2)) :=
                    fun h => hex ⟨p, _, rfl, hfs, by rw [ht]; exact hm, Or.inr h⟩
                  rw [hcount] at hne
                  have hdrop : List.drop 4 (List.take 8
                      (b0 :: b1 :: b2 :: b3 :: b4 :: b5 :: b6 :: b7 :: rest2)) = [b4, b5, b6, b7] := by
                    simp
                  have hlen8 : (List.take 8
                      (b0 :: b1 :: b2 :: b3 :: b4 :: b5 :: b6 :: b7 :: rest2)).length = 8 := by simp
                  rw [if_pos hlen8, hdrop,
                    swap_load_bigEndian bigEndianHost b4 b5 b6 b7 h4 h5 h6 h7,
                    toInt32_of_lt _ (by omega)]
                  simp only [Bool.false_eq_true, if_false]
                  split <;> omega
              · exact absurd ⟨p, _, rfl, hfs, by rw [ht]; exact hm, Or.inl (by omega)⟩ hex
          · rw [analyzeMagic_unrecognised bigEndianHost b0 b1 b2 b3 _ h0 h1 h2 h3 hm] at hv
            simp [MachOInfo.zero] at hv
        · rw [analyzeMachO_short bigEndianHost fs p content err hfs (by omega)] at hv
          simp [MachOInfo.zero] at hv
  · rintro p content rfl hfs hm h8 hexc
    have hb := hbytes p _ hfs
    rw [analyzeMachO_regular bigEndianHost fs p _ err hfs (by omega),
      analyzeMagic_fat bigEndianHost _ _ hm]
    match content, h8 with
    | b0 :: b1 :: b2 :: b3 :: b4 :: b5 :: b6 :: b7 :: rest2, _ =>
      have h4 : b4 < 256 := hb b4 (by simp)
      have h5 : b5 < 256 := hb b5 (by simp)
      have h6 : b6 < 256 := hb b6 (by simp)
      have h7 : b7 < 256 := hb b7 (by simp)
      have hcount : fatCountField (b0 :: b1 :: b2 :: b3 :: b4 :: b5 :: b6 :: b7 :: rest2)
          = b4 * 2 ^ 24 + b5 * 2 ^ 16 + b6 * 2 ^ 8 + b7 := rfl
      rw [hcount] at hexc
      have hdrop : List.drop 4 (List.take 8
          (b0 :: b1 :: b2 :: b3 :: b4 :: b5 :: b6 :: b7 :: rest2)) = [b4, b5, b6, b7] := by
        simp
      have hlen8 : (List.take 8
          (b0 :: b1 :: b2 :: b3 :: b4 :: b5 :: b6 :: b7 :: rest2)).length = 8 := by simp
      rw [if_pos hlen8, hdrop, swap_load_bigEndian bigEndianHost b4 b5 b6 b7 h4 h5 h6 h7,
        toInt32_of_lt _ (by omega)]
      simp only [Bool.false_eq_true, if_false, true_and]
      split <;> omega

/-- C4 (amended) at a concrete input: a fat header with three slices. -/
theorem C4_valid_architecture_count_witness :
    1 ≤ (analyzeMachO false (fun _ => FileNode.regular [0xCA, 0xFE, 0xBA, 0xBE, 0, 0, 0, 3])
      (some [97]) []).1.architectureCount :=
  (C4_valid_architecture_count false
    (fun _ => FileNode.regular [0xCA, 0xFE, 0xBA, 0xBE, 0, 0, 0, 3]) (some [97]) []
    (by intro p content h; cases h; decide)).1
    (by
      rintro ⟨p, content, _, h, _, hexc⟩
      cases h
      revert hexc
      decide)
    (by decide)

/-- C5: on a readable file of at least 4 bytes whose first four bytes are none of
the eight recognised magics, `analyzeMachO` returns the zeroed record
(`isValid = false`, no other field populated) and records the message
`Invalid Mach-O magic number`; a file of fewer than 4 bytes, a file that cannot
be read and a path that cannot be opened likewise give the zeroed record and a
non-empty error message. -/
theorem C5_unrecognised_magic_rejected (bigEndianHost : Bool) (fs : FileSystem)
    (path err : List Nat) :
    (∀ content, fs path = FileNode.regular content → IsByteString content →
        4 ≤ content.length → content.take 4 ∉ recognisedMagics →
        analyzeMachO bigEndianHost fs (some path) err =
          ({ isValid := false, is64Bit := false, isArm64e := false, architectureCount := 0,
             architectures := "", hasEncryption := false, isPIE := false,
             numberOfLoadCommands := 0 }, cstr "Invalid Mach-O magic number")) ∧
    (∀ content, fs path = FileNode.regular content → content.length < 4 →
        analyzeMachO bigEndianHost fs (some path) err =
          ({ isValid := false, is64Bit := false, isArm64e := false, architectureCount := 0,
             architectures := "", hasEncryption := false, isPIE := false,
             numberOfLoadCommands := 0 }, cstr "Cannot read magic number")) ∧
    (fs path = FileNode.unreadable →
        analyzeMachO bigEndianHost fs (some path) err =
          ({ isValid := false, is64Bit := false, isArm64e := false, architectureCount := 0,
             architectures := "", hasEncryption := false, isPIE := false,
             numberOfLoadCommands := 0 }, cstr "Cannot read magic number")) ∧
    (fs path = FileNode.absent →
        analyzeMachO bigEndianHost fs (some path) err =
          ({ isValid := false, is64Bit := false, isArm64e := false, architectureCount := 0,
             architectures := "", hasEncryption := false, isPIE := false,
             numberOfLoadCommands := 0 },
            (cstr "Cannot open Mach-O file: " ++ path).take 1023) ∧
        (analyzeMachO bigEndianHost fs (some path) err).2 ≠ []) ∧
    cstr "Invalid Mach-O magic number" ≠ [] ∧ cstr "Cannot read magic number" ≠ [] := by
  have e1 : setError (cstr "Invalid Mach-O magic number") = cstr "Invalid Mach-O magic number" := by
    decide
  have e2 : setError (cstr "Cannot read magic number") = cstr "Cannot read magic number" := by
    decide
  refine ⟨?_, ?_, ?_, ?_, by decide, by decide⟩
  · intro content hfs hb hlen hm
    obtain ⟨b0, b1, b2, b3, rest, rfl⟩ := take_four content hlen
    have ht : List.take 4 (b0 :: b1 :: b2 :: b3 :: rest) = [b0, b1, b2, b3] := by simp
    rw [ht] at hm
    rw [analyzeMachO_regular bigEndianHost fs path _ err hfs hlen, ht,
      analyzeMagic_unrecognised bigEndianHost b0 b1 b2 b3 _ (hb b0 (by simp)) (hb b1 (by simp))
        (hb b2 (by simp)) (hb b3 (by simp)) hm, e1]
    rfl
  · intro content hfs hlen
    rw [analyzeMachO_short bigEndianHost fs path content err hfs hlen, e2]
    rfl
  · intro hfs
    simp only [analyzeMachO, hfs, e2]
    rfl
  · intro hfs
    have hne : (cstr "Cannot open Mach-O file: " ++ path).take 1023 ≠ [] := by
      have : cstr "Cannot open Mach-O file: " = 67 :: (cstr "annot open Mach-O file: ") := by decide
      rw [this]
      simp
    have hres : analyzeMachO bigEndianHost fs (some path) err =
        (MachOInfo.zero, (cstr "Cannot open Mach-O file: " ++ path).take 1023) := by
      simp only [analyzeMachO, hfs, setError]
    rw [hres]
    exact ⟨rfl, hne⟩

/-- C5 at a concrete input: a PNG file is not a Mach-O image. -/
theorem C5_unrecognised_magic_rejected_witness :
    analyzeMachO false (fun _ => FileNode.regular [0x89, 0x50, 0x4E, 0x47, 0x0D, 0x0A])
        (some [97]) [] =
      ({ isValid := false, is64Bit := false, isArm64e := false, architectureCount := 0,
         architectures := "", hasEncryption := false, isPIE := false,
         numberOfLoadCommands := 0 }, cstr "Invalid Mach-O magic number") :=
  (C5_unrecognised_magic_rejected false
    (fun _ => FileNode.regular [0x89, 0x50, 0x4E, 0x47, 0x0D, 0x0A]) [97] []).1
    [0x89, 0x50, 0x4E, 0x47, 0x0D, 0x0A] rfl (by decide) (by decide) (by decide)

/-! ## The fallbacks of `detectFileType` -/

/-- The run of `detectFileType` on a readable file: the first 32 bytes are
classified and the error buffer is left alone. -/
theorem detectFileType_regular (fs : FileSystem) (path content err : List Nat)
    (hfile : fs path = FileNode.regular content) :
    detectFileType fs (some path) err = (classifyBuffer path (content.take 32), err) := by
  simp only [detectFileType, hfile]

/-- When no row of the table matches the content, the signature loop returns
nothing. -/
theorem matchSignature_of_not_matches (path content : List Nat)
    (h : ¬ SignatureMatches content) :
    matchSignature path (content.take 32) magicSignatures = none :=
  matchSignature_eq_none path content magicSignatures magicSignatures_wellFormed
    (fun sig hs hp => h ⟨sig, hs, hp⟩)

/-- The `ftyp` test of the code on the bytes read is the presence of the marker
at offsets 4..7 of a file of at least 12 bytes. -/
theorem ftyp_test_iff (content : List Nat) :
    ((content.take 32).length ≥ 12 ∧ memcmp ((content.take 32).drop 4) litFtyp 4 = 0) ↔
      (12 ≤ content.length ∧ FtypAtOffset4 content) := by
  have hlen : (content.take 32).length ≥ 12 ↔ 12 ≤ content.length := by
    simp only [List.length_take]; omega
  have htake : ((content.take 32).drop 4).take 4 = (content.drop 4).take 4 := by
    rw [List.drop_take, List.take_take]
    rfl
  constructor
  · rintro ⟨h1, h2⟩
    have hl : 4 ≤ ((content.take 32).drop 4).length := by
      simp only [List.length_drop]; omega
    rw [memcmp_eq_zero_iff _ _ _ hl (by decide), htake] at h2
    exact ⟨hlen.mp h1, h2⟩
  · rintro ⟨h1, h2⟩
    have h1b := hlen.mpr h1
    have hl : 4 ≤ ((content.take 32).drop 4).length := by
      simp only [List.length_drop]; omega
    refine ⟨h1b, ?_⟩
    rw [memcmp_eq_zero_iff _ _ _ hl (by decide), htake]
    exact h2

/-- The text loop accepts the buffer exactly when every byte is a text byte. -/
theorem isText_iff (buffer : List Nat) : isText buffer = true ↔ ∀ b ∈ buffer, IsTextByte b := by
  induction buffer with
  | nil => simp [isText]
  | cons x xs ih =>
    by_cases hx : x = 0 ∨ (x < 32 ∧ x ≠ 10 ∧ x ≠ 13 ∧ x ≠ 9)
    · have hnt : ¬ IsTextByte x := by unfold IsTextByte; omega
      simp only [isText, hx, if_true, Bool.false_eq_true, List.mem_cons, forall_eq_or_imp,
        false_iff, not_and]
      exact fun h => absurd h hnt
    · have ht : IsTextByte x := by unfold IsTextByte; omega
      simp only [isText, hx, if_false, List.mem_cons, forall_eq_or_imp, ht, true_and]
      exact ih

/-- A path without a dot has no mapped extension. -/
theorem not_extensionMapsTo_of_no_dot (path : List Nat) (h : dotChar ∉ path) (t : FileType) :
    ¬ ExtensionMapsTo path t := by
  rintro ⟨ext, e, ⟨pre, rfl, _⟩, _⟩
  exact h (by simp)

/-- The extension of a path is unique. -/
theorem hasExtension_unique {path e1 e2 : List Nat} (h1 : HasExtension path e1)
    (h2 : HasExtension path e2) : e1 = e2 := by
  have := (strrchr_of_hasExtension h1).symm.trans (strrchr_of_hasExtension h2)
  simpa using this

/-- The extension fallback returns the type the table maps the extension to. -/
theorem extensionFallback_of_maps (path : List Nat) (t : FileType) (hpath : IsCString path)
    (h : ExtensionMapsTo path t) : extensionFallback path = some t := by
  obtain ⟨ext, e, hext, hmem, heq⟩ := h
  have hc := isCString_of_hasExtension hpath hext
  have key : ∀ lit : List Nat, IsCString lit →
      ((strcasecmp ext lit = 0) = (e.map tolower = lit.map tolower)) := by
    intro lit hlit
    rw [← heq]
    exact propext (strcasecmp_eq_zero_iff ext lit hc hlit)
  simp only [extensionFallback, strrchr_of_hasExtension hext, List.drop_succ_cons, List.drop_zero,
    key litJson (by decide), key litPlist (by decide), key litXml (by decide),
    key litTxt (by decide), key litText (by decide), key litP12 (by decide),
    key litPfx (by decide), key litMobileprovision (by decide), key litDylib (by decide),
    key litMp3 (by decide), key litM4a (by decide)]
  simp only [mappedExtensions, List.mem_cons, List.mem_singleton, List.not_mem_nil, or_false,
    Prod.mk.injEq] at hmem
  rcases hmem with h | h | h | h | h | h | h | h | h | h | h
  all_goals
    obtain ⟨rfl, rfl⟩ := h
    decide

/-- The extension fallback returns nothing when the table maps no extension of
the path. -/
theorem extensionFallback_of_unmapped (path : List Nat) (hpath : IsCString path)
    (h : ∀ t, ¬ ExtensionMapsTo path t) : extensionFallback path = none := by
  cases hr : strrchr path dotChar with
  | none => simp only [extensionFallback, hr]
  | some r =>
    obtain ⟨ext, rfl, hext⟩ := hasExtension_of_strrchr hr
    have hc := isCString_of_hasExtension hpath hext
    have key : ∀ e t, (e, t) ∈ mappedExtensions → IsCString e → ¬ strcasecmp ext e = 0 := by
      intro e t hmem hlit h0
      exact h t ⟨ext, e, hext, hmem, (strcasecmp_eq_zero_iff ext e hc hlit).mp h0⟩
    simp only [extensionFallback, hr, List.drop_succ_cons, List.drop_zero,
      key litJson FileType.FileTypeJSON (by decide) (by decide),
      key litPlist FileType.FileTypePlist (by decide) (by decide),
      key litXml FileType.FileTypeXML (by decide) (by decide),
      key litTxt FileType.FileTypeText (by decide) (by decide),
      key litText FileType.FileTypeText (by decide) (by decide),
      key litP12 FileType.FileTypeP12 (by decide) (by decide),
      key litPfx FileType.FileTypeP12 (by decide) (by decide),
      key litMobileprovision FileType.FileTypeMobileProvision (by decide) (by decide),
      key litDylib FileType.FileTypeDylib (by decide) (by decide),
      key litMp3 FileType.FileTypeAudio (by decide) (by decide),
      key litM4a FileType.FileTypeAudio (by decide) (by decide), if_false, or_self]

/-- When no signature matches and the `ftyp` test fails, the classification is
left to the extension fallback and then to the text loop. -/
theorem classifyBuffer_fallback (path content : List Nat) (hsig : ¬ SignatureMatches content)
    (hftyp : ¬ (12 ≤ content.length ∧ FtypAtOffset4 content)) :
    classifyBuffer path (content.take 32) =
      match extensionFallback path with
      | some t => t
      | none =>
        if isText (content.take 32) then FileType.FileTypeText else FileType.FileTypeUnknown := by
  have h := (ftyp_test_iff content).not.mpr hftyp
  simp only [classifyBuffer, matchSignature_of_not_matches path content hsig]
  rw [if_neg h]

/-- When no signature matches and the `ftyp` test succeeds, the file is a video. -/
theorem classifyBuffer_ftyp (path content : List Nat) (hsig : ¬ SignatureMatches content)
    (hftyp : 12 ≤ content.length ∧ FtypAtOffset4 content) :
    classifyBuffer path (content.take 32) = FileType.FileTypeVideo := by
  have h := (ftyp_test_iff content).mpr hftyp
  simp only [classifyBuffer, matchSignature_of_not_matches path content hsig]
  rw [if_pos h]

/-- No row of the table matches the empty file. -/
theorem not_signatureMatches_nil : ¬ SignatureMatches [] := by
  rintro ⟨sig, hs, hp⟩
  have hne : ∀ s ∈ magicSignatures, s.bytes ≠ [] := by decide
  exact hne sig hs ( List.prefix_nil.mp hp)

/-- C6 (counterexample): an empty file whose path has no dot is classified as
Text, not as Unknown. -/
theorem C6_counterexample :
    dotChar ∉ [97] ∧
    (detectFileType (fun _ => FileNode.regular []) (some [97]) []).1 ≠ FileType.FileTypeUnknown := by
  decide

/-- C6 (amended): on an empty file, `detectFileType` returns `FileTypeText` (the
text loop accepts the empty buffer) for every path that has no dot or whose
extension is not mapped, and returns the mapped type for every path whose
extension is mapped. -/
theorem C6_empty_file (fs : FileSystem) (path err : List Nat) (hpath : IsCString path)
    (hfile : fs path = FileNode.regular []) :
    (dotChar ∉ path → (detectFileType fs (some path) err).1 = FileType.FileTypeText) ∧
    ((∀ t, ¬ ExtensionMapsTo path t) →
      (detectFileType fs (some path) err).1 = FileType.FileTypeText) ∧
    (∀ t, ExtensionMapsTo path t → (detectFileType fs (some path) err).1 = t) := by
  have hres := detectFileType_regular fs path [] err hfile
  have hfb := classifyBuffer_fallback path [] not_signatureMatches_nil (by simp)
  rw [hres, hfb]
  have hun : (∀ t, ¬ ExtensionMapsTo path t) →
      (match extensionFallback path with
        | some t => t
        | none =>
          if isText (List.take 32 []) then FileType.FileTypeText
          else FileType.FileTypeUnknown) = FileType.FileTypeText := by
    intro h
    rw [extensionFallback_of_unmapped path hpath h]
    rfl
  refine ⟨fun h => hun (not_extensionMapsTo_of_no_dot path h), hun, ?_⟩
  intro t ht
  rw [extensionFallback_of_maps path t hpath ht]

/-- C6 (amended) at a concrete input: an empty file named `a.plist`. -/
theorem C6_empty_file_witness :
    (detectFileType (fun _ => FileNode.regular []) (some [97, 46, 112, 108, 105, 115, 116]) []).1
      = FileType.FileTypePlist :=
  (C6_empty_file (fun _ => FileNode.regular []) [97, 46, 112, 108, 105, 115, 116] []
    (by decide) rfl).2.2 FileType.FileTypePlist
    ⟨litPlist, litPlist, ⟨[97], rfl, by decide⟩, by decide, rfl⟩

/-- C7: on a readable file on which no signature matches, the `ftyp` test does
not fire and the extension is not mapped, `detectFileType` returns
`FileTypeText` exactly when every one of the bytes read (the first
`min n 32`) is at least 32 or a tab, newline or carriage return, and
`FileTypeUnknown` otherwise; a file made only of bytes 9, 10, 13 and 32..126 is
Text. -/
theorem C7_text_heuristic (fs : FileSystem) (path content err : List Nat)
    (hpath : IsCString path) (hfile : fs path = FileNode.regular content)
    (hsig : ¬ SignatureMatches content)
    (hftyp : ¬ (12 ≤ content.length ∧ FtypAtOffset4 content))
    (hext : ∀ t, ¬ ExtensionMapsTo path t) :
    ((detectFileType fs (some path) err).1 = FileType.FileTypeText ↔
      ∀ b ∈ content.take 32, IsTextByte b) ∧
    ((¬ ∀ b ∈ content.take 32, IsTextByte b) →
      (detectFileType fs (some path) err).1 = FileType.FileTypeUnknown) ∧
    ((∀ b ∈ content, b = 9 ∨ b = 10 ∨ b = 13 ∨ (32 ≤ b ∧ b ≤ 126)) →
      (detectFileType fs (some path) err).1 = FileType.FileTypeText) := by
  have hres : (detectFileType fs (some path) err).1 =
      if isText (content.take 32) then FileType.FileTypeText else FileType.FileTypeUnknown := by
    rw [detectFileType_regular fs path content err hfile,
      classifyBuffer_fallback path content hsig hftyp,
      extensionFallback_of_unmapped path hpath hext]
  have hiff := isText_iff (content.take 32)
  rw [hres]
  refine ⟨?_, ?_, ?_⟩
  · by_cases ht : isText (content.take 32) = true
    · simp only [ht, if_true, true_iff]
      exact hiff.mp ht
    · simp only [ht, if_false, Bool.false_eq_true, false_iff]
      exact ⟨fun h => (by cases h), fun h => absurd (hiff.mpr h) ht⟩
  · intro hn
    have ht : ¬ isText (content.take 32) = true := fun h => hn (hiff.mp h)
    simp only [ht, if_false, Bool.false_eq_true]
  · intro hall
    have ht : isText (content.take 32) = true := by
      apply hiff.mpr
      intro b hb
      have := hall b (List.mem_of_mem_take hb)
      unfold IsTextByte
      omega
    simp only [ht, if_true]

/-- C7 at a concrete input: the file `hi\n` named `notes`. -/
theorem C7_text_heuristic_witness :
    (detectFileType (fun _ => FileNode.regular [104, 105, 10]) (some [110, 111, 116, 101, 115])
      []).1 = FileType.FileTypeText :=
  (C7_text_heuristic (fun _ => FileNode.regular [104, 105, 10]) [110, 111, 116, 101, 115]
    [104, 105, 10] [] (by decide) rfl
    (by decide) (by decide)
    (not_extensionMapsTo_of_no_dot _ (by decide))).2.2 (by decide)

/-- C8 (counterexample): a file of 32 letters `a` followed by a NUL byte, whose
path has no dot and on which no signature matches, is classified as Text: the
NUL byte at offset 32 is never read. -/
theorem C8_counterexample :
    0 ∈ List.replicate 32 97 ++ [0] ∧
    ¬ SignatureMatches (List.replicate 32 97 ++ [0]) ∧
    dotChar ∉ [97] ∧
    (detectFileType (fun _ => FileNode.regular (List.replicate 32 97 ++ [0])) (some [97]) []).1
      = FileType.FileTypeText := by
  decide

/-- C8 (amended): on a readable file that has a NUL byte among its first 32
bytes (whatever its other bytes), on which no signature matches and whose
extension is not mapped, `detectFileType` does not return `FileTypeText`. -/
theorem C8_nul_in_bytes_read (fs : FileSystem) (path content err : List Nat)
    (hpath : IsCString path) (hfile : fs path = FileNode.regular content)
    (hnul : 0 ∈ content.take 32) (hsig : ¬ SignatureMatches content)
    (hext : ∀ t, ¬ ExtensionMapsTo path t) :
    (detectFileType fs (some path) err).1 ≠ FileType.FileTypeText := by
  rw [detectFileType_regular fs path content err hfile]
  by_cases hftyp : 12 ≤ content.length ∧ FtypAtOffset4 content
  · rw [classifyBuffer_ftyp path content hsig hftyp]
    exact fun h => FileType.noConfusion h
  · rw [classifyBuffer_fallback path content hsig hftyp,
      extensionFallback_of_unmapped path hpath hext]
    have ht : ¬ isText (content.take 32) = true := by
      intro h
      have := (isText_iff _).mp h 0 hnul
      unfold IsTextByte at this
      omega
    simp only [ht, if_false, Bool.false_eq_true]
    exact fun h => FileType.noConfusion h

/-- C8 (amended) at a concrete input: `a`, NUL, `b` in a file named `a`. -/
theorem C8_nul_in_bytes_read_witness :
    (detectFileType (fun _ => FileNode.regular [97, 0, 98]) (some [97]) []).1
      ≠ FileType.FileTypeText :=
  C8_nul_in_bytes_read (fun _ => FileNode.regular [97, 0, 98]) [97] [97, 0, 98] []
    (by decide) rfl (by decide) (by decide) (not_extensionMapsTo_of_no_dot _ (by decide))

/-- C9: on a readable file on which no signature matches and which has no `ftyp`
marker at offset 4 (binary content and NUL bytes included), for every path whose
text after the last dot equals one of the mapped extensions up to letter case,
`detectFileType` returns the mapped type (`mappedExtensions`); two paths whose
extensions differ only in letter case get the same result. -/
theorem C9_extension_fallback (fs : FileSystem) (path content err : List Nat)
    (hpath : IsCString path) (hfile : fs path = FileNode.regular content)
    (hsig : ¬ SignatureMatches content) (hftyp : ¬ FtypAtOffset4 content) :
    (∀ t, ExtensionMapsTo path t → (detectFileType fs (some path) err).1 = t) ∧
    (∀ path2 ext ext2, IsCString path2 → fs path2 = FileNode.regular content →
      HasExtension path ext → HasExtension path2 ext2 → eqIgnoreAsciiCase ext ext2 →
      (∃ t, ExtensionMapsTo path t) →
      (detectFileType fs (some path2) err).1 = (detectFileType fs (some path) err).1) := by
  have hmain : ∀ p, IsCString p → fs p = FileNode.regular content → ∀ t,
      ExtensionMapsTo p t → (detectFileType fs (some p) err).1 = t := by
    intro p hp hf t ht
    rw [detectFileType_regular fs p content err hf,
      classifyBuffer_fallback p content hsig (fun h => hftyp h.2),
      extensionFallback_of_maps p t hp ht]
  refine ⟨hmain path hpath hfile, ?_⟩
  rintro path2 ext ext2 hpath2 hfile2 hext hext2 hcase ⟨t, e1, e, he1, hmem, heq⟩
  have hee : e1 = ext := hasExtension_unique he1 hext
  subst hee
  have ht2 : ExtensionMapsTo path2 t := ⟨ext2, e, hext2, hmem, hcase.symm.trans heq⟩
  rw [hmain path2 hpath2 hfile2 t ht2, hmain path hpath hfile t ⟨e1, e, he1, hmem, heq⟩]

/-- C9 at a concrete input: binary content in a file named `a.MobileProvision`. -/
theorem C9_extension_fallback_witness :
    (detectFileType (fun _ => FileNode.regular [0, 1, 2, 255])
      (some [97, 46, 77, 111, 98, 105, 108, 101, 80, 114, 111, 118, 105, 115, 105, 111, 110])
      []).1 = FileType.FileTypeMobileProvision :=
  (C9_extension_fallback (fun _ => FileNode.regular [0, 1, 2, 255])
    [97, 46, 77, 111, 98, 105, 108, 101, 80, 114, 111, 118, 105, 115, 105, 111, 110]
    [0, 1, 2, 255] [] (by decide) rfl (by decide) (by decide)).1
    FileType.FileTypeMobileProvision
    ⟨[77, 111, 98, 105, 108, 101, 80, 114, 111, 118, 105, 115, 105, 111, 110],
      litMobileprovision, ⟨[97], rfl, by decide⟩, by decide, by decide⟩

/-- C10 (counterexample): an 8-byte file with `ftyp` at offsets 4..7, on which no
signature matches, is not classified as Video: the marker test needs 12 bytes. -/
theorem C10_counterexample :
    ¬ SignatureMatches [0, 0, 0, 8, 0x66, 0x74, 0x79, 0x70] ∧
    FtypAtOffset4 [0, 0, 0, 8, 0x66, 0x74, 0x79, 0x70] ∧
    (detectFileType (fun _ => FileNode.regular [0, 0, 0, 8, 0x66, 0x74, 0x79, 0x70])
      (some [97, 46, 109, 112, 52]) []).1 ≠ FileType.FileTypeVideo := by
  decide

/-- C10 (amended): on a readable file of at least 12 bytes on which no signature
matches and whose bytes at offsets 4..7 are `ftyp`, `detectFileType` returns
`FileTypeVideo` for every path, before any extension mapping or text test. -/
theorem C10_ftyp_marker (fs : FileSystem) (path content err : List Nat)
    (hfile : fs path = FileNode.regular content) (hsig : ¬ SignatureMatches content)
    (hftyp : FtypAtOffset4 content) (hlen : 12 ≤ content.length) :
    (detectFileType fs (some path) err).1 = FileType.FileTypeVideo := by
  rw [detectFileType_regular fs path content err hfile,
    classifyBuffer_ftyp path content hsig ⟨hlen, hftyp⟩]

/-- C10 (amended) at a concrete input: an MP4 header in a file named `a.txt`. -/
theorem C10_ftyp_marker_witness :
    (detectFileType
      (fun _ => FileNode.regular [0, 0, 0, 0x18, 0x66, 0x74, 0x79, 0x70, 0x6D, 0x70, 0x34, 0x32])
      (some [97, 46, 116, 120, 116]) []).1 = FileType.FileTypeVideo :=
  C10_ftyp_marker
    (fun _ => FileNode.regular [0, 0, 0, 0x18, 0x66, 0x74, 0x79, 0x70, 0x6D, 0x70, 0x34, 0x32])
    [97, 46, 116, 120, 116] [0, 0, 0, 0x18, 0x66, 0x74, 0x79, 0x70, 0x6D, 0x70, 0x34, 0x32] []
    rfl (by decide) (by decide) (by decide)

/-! ## The classification depends on the bytes read and the extension only -/

/-- The result of `strcasecmp` depends on its first argument only through the
lower-cased bytes. -/
theorem strcasecmp_congr (a a2 b : List Nat) (h : a.map tolower = a2.map tolower) :
    strcasecmp a b = strcasecmp a2 b := by
  induction a generalizing a2 b with
  | nil =>
    cases a2 with
    | nil => rfl
    | cons y ys => simp at h
  | cons x xs ih =>
    cases a2 with
    | nil => simp at h
    | cons y ys =>
      simp only [List.map_cons, List.cons.injEq] at h
      cases b with
      | nil => simp only [strcasecmp, h.1]
      | cons z zs => simp only [strcasecmp, h.1, ih ys zs h.2]

/-- The row refinement is the same for two paths with the same extension. -/
theorem matchedType_congr (p1 p2 : List Nat) (sig : MagicSignature) (h : SameExtension p1 p2) :
    matchedType p1 sig = matchedType p2 sig := by
  rcases h with ⟨h1, h2⟩ | ⟨e1, e2, h1, h2, he⟩
  · simp only [matchedType, (strrchr_eq_none_iff p1 dotChar).mpr h1,
      (strrchr_eq_none_iff p2 dotChar).mpr h2]
  · have hc : (dotChar :: e1).map tolower = (dotChar :: e2).map tolower := by
      simp only [List.map_cons, he]
    simp only [matchedType, strrchr_of_hasExtension h1, strrchr_of_hasExtension h2,
      strcasecmp_congr _ _ litDotIpa hc]

/-- The signature loop gives the same result for two paths with the same extension. -/
theorem matchSignature_congr (p1 p2 buffer : List Nat) (tbl : List MagicSignature)
    (h : SameExtension p1 p2) :
    matchSignature p1 buffer tbl = matchSignature p2 buffer tbl := by
  induction tbl with
  | nil => rfl
  | cons s rest ih => simp only [matchSignature, matchedType_congr p1 p2 s h, ih]

/-- The extension fallback gives the same result for two paths with the same
extension. -/
theorem extensionFallback_congr (p1 p2 : List Nat) (h : SameExtension p1 p2) :
    extensionFallback p1 = extensionFallback p2 := by
  rcases h with ⟨h1, h2⟩ | ⟨e1, e2, h1, h2, he⟩
  · simp only [extensionFallback, (strrchr_eq_none_iff p1 dotChar).mpr h1,
      (strrchr_eq_none_iff p2 dotChar).mpr h2]
  · simp only [extensionFallback, strrchr_of_hasExtension h1, strrchr_of_hasExtension h2,
      List.drop_succ_cons, List.drop_zero, strcasecmp_congr e1 e2 _ he]

/-- C11: `detectFileType` depends on the first 32 bytes of the content and on the
extension only: two readable files whose contents agree on their first 32 bytes
(equal if shorter), under two paths whose suffixes from the last `'.'` are equal
up to ASCII letter case (or which both have no `'.'`), get the same `FileType`,
whatever the later bytes, the directory and base name of the paths and the
previous error message. -/
theorem C11_depends_on_bytes_read_and_extension (fs1 fs2 : FileSystem)
    (p1 p2 c1 c2 err1 err2 : List Nat)
    (hf1 : fs1 p1 = FileNode.regular c1) (hf2 : fs2 p2 = FileNode.regular c2)
    (hbytes : c1.take 32 = c2.take 32) (hext : SameExtension p1 p2) :
    (detectFileType fs1 (some p1) err1).1 = (detectFileType fs2 (some p2) err2).1 := by
  rw [detectFileType_regular fs1 p1 c1 err1 hf1, detectFileType_regular fs2 p2 c2 err2 hf2, hbytes]
  simp only [classifyBuffer, matchSignature_congr p1 p2 _ _ hext, extensionFallback_congr p1 p2 hext]

/-- C11 at a concrete input: `x/a.TXT` with 33 bytes and `b.txt` with the first
32 of them. -/
theorem C11_depends_on_bytes_read_and_extension_witness :
    (detectFileType (fun _ => FileNode.regular (List.replicate 32 1 ++ [7]))
        (some [120, 47, 97, 46, 84, 88, 84]) []).1 =
      (detectFileType (fun _ => FileNode.regular (List.replicate 32 1))
        (some [98, 46, 116, 120, 116]) [33]).1 :=
  C11_depends_on_bytes_read_and_extension
    (fun _ => FileNode.regular (List.replicate 32 1 ++ [7]))
    (fun _ => FileNode.regular (List.replicate 32 1))
    [120, 47, 97, 46, 84, 88, 84] [98, 46, 116, 120, 116]
    (List.replicate 32 1 ++ [7]) (List.replicate 32 1) [] [33] rfl rfl (by decide)
    (Or.inr ⟨[84, 88, 84], [116, 120, 116], ⟨[120, 47, 97], rfl, by decide⟩,
      ⟨[98], rfl, by decide⟩, by decide⟩)

/-- C20 (failing input): a file that starts with the 64-bit fat magic
`CA FE BA BF` is a valid image for `analyzeMachO` on either host byte order, and
`detectFileType` does not return `FileTypeMachO` for it; the same holds for the
byte-swapped magic `BF BA FE CA`. -/
theorem C20_fat64_magic_not_classified :
    (analyzeMachO false (fun _ => FileNode.regular [0xCA, 0xFE, 0xBA, 0xBF, 0, 0, 0, 1])
        (some [97]) []).1.isValid = true ∧
    (analyzeMachO true (fun _ => FileNode.regular [0xCA, 0xFE, 0xBA, 0xBF, 0, 0, 0, 1])
        (some [97]) []).1.isValid = true ∧
    (detectFileType (fun _ => FileNode.regular [0xCA, 0xFE, 0xBA, 0xBF, 0, 0, 0, 1])
        (some [97]) []).1 = FileType.FileTypeUnknown ∧
    (analyzeMachO false (fun _ => FileNode.regular [0xBF, 0xBA, 0xFE, 0xCA, 0, 0, 0, 1])
        (some [97]) []).1.isValid = true ∧
    (detectFileType (fun _ => FileNode.regular [0xBF, 0xBA, 0xFE, 0xCA, 0, 0, 0, 1])
        (some [97]) []).1 = FileType.FileTypeUnknown := by
  decide

/-! ## Hashing -/

/-- The read loop of `calculateHashes` ends within one round per chunk plus two. -/
theorem hashLoop_isSome (md5 sha1 sha256 : DigestAlgorithm) (fuel : Nat) (file : IfStream)
    (ctx : md5.Context × sha1.Context × sha256.Context)
    (hfuel : (if file.good = true then file.rest.length / 8192 + 2 else 1) ≤ fuel) :
    ∃ out, hashLoop md5 sha1 sha256 fuel file ctx = some out := by
  induction fuel generalizing file ctx with
  | zero => split at hfuel <;> omega
  | succ fuel ih =>
    by_cases hg : file.good = true
    · rw [if_pos hg] at hfuel
      by_cases hlen : 8192 ≤ file.rest.length
      · have hr : file.read 8192 =
            (file.rest.take 8192, { rest := file.rest.drop 8192, good := true }) := by
          simp only [IfStream.read, hg, if_true, hlen]
        simp only [hashLoop, hr, true_or, if_true]
        apply ih
        simp only [if_true, List.length_drop]
        omega
      · have hr : file.read 8192 = (file.rest, { rest := [], good := false }) := by
          simp only [IfStream.read, hg, if_true, hlen, if_false]
        simp only [hashLoop, hr, Bool.false_eq_true, false_or]
        by_cases hpos : file.rest.length > 0
        · rw [if_pos hpos]
          apply ih
          simp only [Bool.false_eq_true, if_false]
          omega
        · rw [if_neg hpos]
          exact ⟨ctx, rfl⟩
    · have hr : file.read 8192 = ([], file) := by
        simp only [IfStream.read, hg, if_false, Bool.false_eq_true]
      simp only [hashLoop, hr, hg, List.length_nil, gt_iff_lt, lt_self_iff_false, or_self,
        if_false, Bool.false_eq_true]
      exact ⟨ctx, rfl⟩

/-- The run of `calculateHashes` on a readable file: the loop ends and the three
digests are converted to hexadecimal. -/
theorem calculateHashes_regular (md5 sha1 sha256 : DigestAlgorithm) (fs : FileSystem)
    (path content err : List Nat) (hfile : fs path = FileNode.regular content) :
    ∃ ctx, hashLoop md5 sha1 sha256 (content.length / 8192 + 2)
        { rest := content, good := true } (md5.init, sha1.init, sha256.init) = some ctx ∧
      calculateHashes md5 sha1 sha256 fs (some path) err =
        some ({ md5 := hexString ((md5.final ctx.1).take CC_MD5_DIGEST_LENGTH),
                sha1 := hexString ((sha1.final ctx.2.1).take CC_SHA1_DIGEST_LENGTH),
                sha256 := hexString ((sha256.final ctx.2.2).take CC_SHA256_DIGEST_LENGTH) },
              err) := by
  obtain ⟨ctx, hctx⟩ := hashLoop_isSome md5 sha1 sha256 (content.length / 8192 + 2)
    { rest := content, good := true } (md5.init, sha1.init, sha256.init) (by simp)
  refine ⟨ctx, hctx, ?_⟩
  simp only [calculateHashes, openForHashing, hfile, hctx, Option.map_some']

theorem hexDigitLower_isLowerHexChar (n : Nat) (h : n < 16) :
    IsLowerHexChar (hexDigitLower n) := by
  unfold IsLowerHexChar hexDigitLower
  split <;> omega

theorem hexValue_hexDigitLower (n : Nat) (h : n < 16) : hexValue (hexDigitLower n) = n := by
  unfold hexValue hexDigitLower
  split <;> split <;> try split
  all_goals omega

theorem hexString_length (d : List Nat) : (hexString d).length = 2 * d.length := by
  induction d with
  | nil => rfl
  | cons b rest ih => simp only [hexString, List.length_cons, ih]; omega

/-- A hexadecimal string produced by the engine contains no NUL. -/
theorem hexString_isCString (d : List Nat) : IsCString (hexString d) := by
  induction d with
  | nil => intro c hc; simp [hexString] at hc
  | cons b rest ih =>
    intro c hc
    simp only [hexString, List.mem_cons] at hc
    rcases hc with h | h | h
    · rw [h]; unfold hexDigitLower; split <;> omega
    · rw [h]; unfold hexDigitLower; split <;> omega
    · exact ih c h

/-- The conversion loop produces the lowercase hexadecimal form of the digest. -/
theorem hexString_isHexEncodingOf (d : List Nat) (hb : IsByteString d) :
    IsHexEncodingOf (hexString d) d := by
  induction d with
  | nil =>
    refine ⟨rfl, ?_, ?_, rfl⟩
    · intro c hc; simp [hexString] at hc
    · intro i hi; simp at hi
  | cons b rest ih =>
    have hb0 : b < 256 := hb b (by simp)
    obtain ⟨_, h2, h3, h4⟩ := ih (fun c hc => hb c (by simp [hc]))
    refine ⟨hexString_length _, ?_, ?_, ?_⟩
    · intro c hc
      simp only [hexString, List.mem_cons] at hc
      rcases hc with h | h | h
      · rw [h]; exact hexDigitLower_isLowerHexChar _ (by omega)
      · rw [h]; exact hexDigitLower_isLowerHexChar _ (by omega)
      · exact h2 c h
    · intro i hi
      cases i with
      | zero => simp [hexString]
      | succ j =>
        have hj : j < rest.length := by simpa using hi
        have e1 : 2 * (j + 1) = (2 * j + 1) + 1 := by omega
        rw [e1]
        simp only [hexString, List.getD_cons_succ]
        exact h3 j hj
    · simp only [hexString, hexDecode, h4, hexValue_hexDigitLower (b / 16) (by omega),
        hexValue_hexDigitLower (b % 16) (by omega)]
      congr 1
      omega

/-- The toy digest returns `n` bytes. -/
theorem toyDigest_final (n : Nat) (c : (toyDigest n).Context) :
    ((toyDigest n).final c).length = n ∧ IsByteString ((toyDigest n).final c) := by
  constructor
  · simp [toyDigest]
  · intro b hb
    have hb2 := List.mem_of_mem_take hb
    simp only [List.mem_append, List.mem_map, List.mem_replicate] at hb2
    rcases hb2 with ⟨x, _, rfl⟩ | ⟨_, rfl⟩
    · exact Nat.mod_lt _ (by decide)
    · decide

/-- The SHA-256 context at the end of the read loop does not depend on the other
two digests. -/
theorem hashLoop_third (md5 sha1 sha256 md5b sha1b : DigestAlgorithm) (fuel : Nat)
    (file : IfStream) (ctx : md5.Context × sha1.Context × sha256.Context)
    (ctxb : md5b.Context × sha1b.Context × sha256.Context) (h : ctx.2.2 = ctxb.2.2) :
    (hashLoop md5 sha1 sha256 fuel file ctx).map (fun o => o.2.2) =
      (hashLoop md5b sha1b sha256 fuel file ctxb).map (fun o => o.2.2) := by
  induction fuel generalizing file ctx ctxb with
  | zero => rfl
  | succ fuel ih =>
    simp only [hashLoop]
    split
    · apply ih
      simp only [h]
    · simp only [Option.map_some', h]

/-- C14 (failing input): for a path that cannot be opened and the empty string as
expected hash, `checkIntegrity` returns true, whatever the three digests are:
the zeroed `sha256` field left by the failed `calculateHashes` is the empty
string, which `strcasecmp` finds equal to the expected one. -/
theorem C14_unopenable_file_passes_empty_hash (md5 sha1 sha256 : DigestAlgorithm) :
    checkIntegrity md5 sha1 sha256 (fun _ => FileNode.absent) (some [97]) (some []) [] =
      some (true, setError (cstr "Cannot open file for hashing: " ++ [97])) := by
  rfl

/-- C15: for a readable file, `checkIntegrity(path, e)` returns true exactly when
`e` equals the computed SHA-256 hexadecimal string `h` up to ASCII letter case;
the upper-cased `h` is accepted; and the verdict is the same whatever the MD5
and SHA-1 digests are. -/
theorem C15_integrity_ignores_case (md5 sha1 sha256 md5b sha1b : DigestAlgorithm)
    (fs : FileSystem) (path content err expected : List Nat)
    (hfile : fs path = FileNode.regular content) (hexp : IsCString expected) :
    ∃ h, (calculateHashes md5 sha1 sha256 fs (some path) err).map (fun r => r.1.sha256) = some h ∧
      ((checkIntegrity md5 sha1 sha256 fs (some path) (some expected) err).map Prod.fst =
        some (decide (eqIgnoreAsciiCase expected h))) ∧
      ((checkIntegrity md5 sha1 sha256 fs (some path) (some (h.map toupper)) err).map Prod.fst =
        some true) ∧
      ((checkIntegrity md5b sha1b sha256 fs (some path) (some expected) err).map Prod.fst =
        (checkIntegrity md5 sha1 sha256 fs (some path) (some expected) err).map Prod.fst) := by
  obtain ⟨ctx, hctx, hres⟩ := calculateHashes_regular md5 sha1 sha256 fs path content err hfile
  obtain ⟨ctxb, hctxb, hresb⟩ := calculateHashes_regular md5b sha1b sha256 fs path content err hfile
  have hsame : ctx.2.2 = ctxb.2.2 := by
    have := hashLoop_third md5 sha1 sha256 md5b sha1b (content.length / 8192 + 2)
      { rest := content, good := true } (md5.init, sha1.init, sha256.init)
      (md5b.init, sha1b.init, sha256.init) rfl
    rw [hctx, hctxb] at this
    simpa using this
  have hc := hexString_isCString ((sha256.final ctx.2.2).take CC_SHA256_DIGEST_LENGTH)
  have key : ∀ e, IsCString e →
      (decide (strcasecmp (hexString ((sha256.final ctx.2.2).take CC_SHA256_DIGEST_LENGTH)) e = 0)
        = decide (eqIgnoreAsciiCase e
            (hexString ((sha256.final ctx.2.2).take CC_SHA256_DIGEST_LENGTH)))) := by
    intro e he
    apply decide_eq_decide.mpr
    rw [strcasecmp_eq_zero_iff _ _ hc he]
    exact eq_comm
  refine ⟨hexString ((sha256.final ctx.2.2).take CC_SHA256_DIGEST_LENGTH), ?_, ?_, ?_, ?_⟩
  · rw [hres]; rfl
  · simp only [checkIntegrity, hres, Option.map_some', key expected hexp]
  · have hup : IsCString ((hexString ((sha256.final ctx.2.2).take CC_SHA256_DIGEST_LENGTH)).map
        toupper) := by
      intro c hcm
      obtain ⟨x, hx, rfl⟩ := List.mem_map.mp hcm
      have := hc x hx
      unfold toupper
      split <;> omega
    have heq : eqIgnoreAsciiCase
        ((hexString ((sha256.final ctx.2.2).take CC_SHA256_DIGEST_LENGTH)).map toupper)
        (hexString ((sha256.final ctx.2.2).take CC_SHA256_DIGEST_LENGTH)) := by
      unfold eqIgnoreAsciiCase
      rw [List.map_map]
      apply List.map_congr_left
      intro x _
      simp only [Function.comp, tolower, toupper]
      split <;> split <;> try split
      all_goals omega
    simp only [checkIntegrity, hres, Option.map_some', key _ hup]
    rw [decide_eq_true heq]
  · simp only [checkIntegrity, hres, hresb, Option.map_some', hsame]

/-- C15 at a concrete input: the toy digest of `hi`, expected in upper case. -/
theorem C15_integrity_ignores_case_witness :
    ∃ h, (calculateHashes (toyDigest 16) (toyDigest 20) (toyDigest 32)
        (fun _ => FileNode.regular [104, 105]) (some [97]) []).map (fun r => r.1.sha256) = some h ∧
      (checkIntegrity (toyDigest 16) (toyDigest 20) (toyDigest 32)
        (fun _ => FileNode.regular [104, 105]) (some [97]) (some (h.map toupper)) []).map Prod.fst
        = some true := by
  obtain ⟨h, h1, _, h3, _⟩ := C15_integrity_ignores_case (toyDigest 16) (toyDigest 20)
    (toyDigest 32) (toyDigest 16) (toyDigest 20) (fun _ => FileNode.regular [104, 105]) [97]
    [104, 105] [] [54, 56] rfl (by decide)
  exact ⟨h, h1, h3⟩

/-- C17: on a readable file, with digests of 16, 20 and 32 bytes, `calculateHashes`
returns strings of exactly 32, 40 and 64 characters, each the lowercase
hexadecimal form of the raw digest left by the read loop (characters `0`-`9`,
`a`-`f` only, characters `2i` and `2i+1` the high and low nibble of byte `i`,
decoding gives the digest back), and each fits its 33/41/65-byte field with
the terminator. -/
theorem C17_hex_digest_strings (md5 sha1 sha256 : DigestAlgorithm) (fs : FileSystem)
    (path content err : List Nat) (hfile : fs path = FileNode.regular content)
    (hmd5 : ∀ c, (md5.final c).length = 16 ∧ IsByteString (md5.final c))
    (hsha1 : ∀ c, (sha1.final c).length = 20 ∧ IsByteString (sha1.final c))
    (hsha256 : ∀ c, (sha256.final c).length = 32 ∧ IsByteString (sha256.final c)) :
    ∃ ctx r,
      hashLoop md5 sha1 sha256 (content.length / 8192 + 2) { rest := content, good := true }
        (md5.init, sha1.init, sha256.init) = some ctx ∧
      calculateHashes md5 sha1 sha256 fs (some path) err = some (r, err) ∧
      IsHexEncodingOf r.md5 (md5.final ctx.1) ∧
      IsHexEncodingOf r.sha1 (sha1.final ctx.2.1) ∧
      IsHexEncodingOf r.sha256 (sha256.final ctx.2.2) ∧
      r.md5.length = 32 ∧ r.sha1.length = 40 ∧ r.sha256.length = 64 ∧
      r.md5.length + 1 ≤ 33 ∧ r.sha1.length + 1 ≤ 41 ∧ r.sha256.length + 1 ≤ 65 := by
  obtain ⟨ctx, hctx, hres⟩ := calculateHashes_regular md5 sha1 sha256 fs path content err hfile
  have t1 : (md5.final ctx.1).take CC_MD5_DIGEST_LENGTH = md5.final ctx.1 :=
    List.take_of_length_le (by rw [(hmd5 ctx.1).1]; decide)
  have t2 : (sha1.final ctx.2.1).take CC_SHA1_DIGEST_LENGTH = sha1.final ctx.2.1 :=
    List.take_of_length_le (by rw [(hsha1 ctx.2.1).1]; decide)
  have t3 : (sha256.final ctx.2.2).take CC_SHA256_DIGEST_LENGTH = sha256.final ctx.2.2 :=
    List.take_of_length_le (by rw [(hsha256 ctx.2.2).1]; decide)
  rw [t1, t2, t3] at hres
  have l1 : (hexString (md5.final ctx.1)).length = 32 := by
    rw [hexString_length, (hmd5 ctx.1).1]
  have l2 : (hexString (sha1.final ctx.2.1)).length = 40 := by
    rw [hexString_length, (hsha1 ctx.2.1).1]
  have l3 : (hexString (sha256.final ctx.2.2)).length = 64 := by
    rw [hexString_length, (hsha256 ctx.2.2).1]
  exact ⟨ctx, _, hctx, hres, hexString_isHexEncodingOf _ (hmd5 ctx.1).2,
    hexString_isHexEncodingOf _ (hsha1 ctx.2.1).2, hexString_isHexEncodingOf _ (hsha256 ctx.2.2).2,
    l1, l2, l3, by rw [l1], by rw [l2], by rw [l3]⟩

/-- C17 at a concrete input: the toy digests of a three-byte file. -/
theorem C17_hex_digest_strings_witness :
    ∃ r, calculateHashes (toyDigest 16) (toyDigest 20) (toyDigest 32)
        (fun _ => FileNode.regular [1, 2, 3]) (some [97]) [] = some (r, []) ∧
      r.md5.length = 32 ∧ r.sha1.length = 40 ∧ r.sha256.length = 64 := by
  obtain ⟨_, r, _, h, _, _, _, l1, l2, l3, _⟩ := C17_hex_digest_strings (toyDigest 16)
    (toyDigest 20) (toyDigest 32) (fun _ => FileNode.regular [1, 2, 3]) [97] [1, 2, 3] [] rfl
    (toyDigest_final 16) (toyDigest_final 20) (toyDigest_final 32)
  exact ⟨r, h, l1, l2, l3⟩

/-! ## File comparison -/

theorem diffCount_nil_left (b : List Nat) : diffCount [] b = 0 := by
  simp [diffCount]

theorem diffCount_nil_right (a : List Nat) : diffCount a [] = 0 := by
  simp [diffCount]

theorem diffCount_cons (x y : Nat) (xs ys : List Nat) :
    diffCount (x :: xs) (y :: ys) = (if x ≠ y then 1 else 0) + diffCount xs ys := by
  by_cases h : x = y
  · simp [diffCount, h]
  · simp [diffCount, h, List.filter_cons]
    omega

theorem diffCount_le (a b : List Nat) : diffCount a b ≤ a.length := by
  induction a generalizing b with
  | nil => simp [diffCount_nil_left]
  | cons x xs ih =>
    cases b with
    | nil => simp [diffCount_nil_right]
    | cons y ys =>
      have := ih ys
      rw [diffCount_cons]
      simp only [List.length_cons]
      split <;> omega

/-- The differences of two strings are those of their first `n` bytes plus those
of the rest. -/
theorem diffCount_take_drop (n : Nat) (a b : List Nat) :
    diffCount (a.take n) (b.take n) + diffCount (a.drop n) (b.drop n) = diffCount a b := by
  induction n generalizing a b with
  | zero => simp [diffCount_nil_left]
  | succ n ih =>
    cases a with
    | nil => simp [diffCount_nil_left]
    | cons x xs =>
      cases b with
      | nil => simp [diffCount_nil_right]
      | cons y ys =>
        simp only [List.take_succ_cons, List.drop_succ_cons, diffCount_cons]
        have := ih xs ys
        omega

/-- Two strings of the same length are equal exactly when they differ nowhere. -/
theorem diffCount_eq_zero_iff (a b : List Nat) (h : a.length = b.length) :
    diffCount a b = 0 ↔ a = b := by
  induction a generalizing b with
  | nil =>
    cases b with
    | nil => simp [diffCount_nil_left]
    | cons y ys => simp at h
  | cons x xs ih =>
    cases b with
    | nil => simp at h
    | cons y ys =>
      have hl : xs.length = ys.length := by simpa using h
      rw [diffCount_cons, List.cons.injEq, ← ih ys hl]
      by_cases hxy : x = y
      · simp [hxy]
      · simp [hxy]

theorem diffCount_self (a : List Nat) : diffCount a a = 0 :=
  (diffCount_eq_zero_iff a a rfl).mpr rfl

/-- Changing one byte makes exactly one difference. -/
theorem diffCount_set (a : List Nat) (i v : Nat) (hi : i < a.length) (hv : v ≠ a.getD i 0) :
    diffCount a (a.set i v) = 1 := by
  induction a generalizing i with
  | nil => simp at hi
  | cons x xs ih =>
    cases i with
    | zero =>
      simp only [List.getD_cons_zero] at hv
      simp only [List.set_cons_zero, diffCount_cons, diffCount_self]
      have : x ≠ v := fun h => hv h.symm
      simp [this]
    | succ j =>
      simp only [List.getD_cons_succ] at hv
      simp only [List.set_cons_succ, diffCount_cons, ne_eq, not_true_eq_false, if_false, zero_add]
      exact ih j (by simpa using hi) hv

/-- The inner loop adds the number of differing positions. -/
theorem countDifferences_eq (xs ys : List Nat) (d : Nat) (h : d + diffCount xs ys < 2 ^ 64) :
    countDifferences xs ys d = d + diffCount xs ys := by
  induction xs generalizing ys d with
  | nil => simp [countDifferences, diffCount_nil_left]
  | cons x xs ih =>
    cases ys with
    | nil => simp [countDifferences, diffCount_nil_right]
    | cons y ys =>
      rw [diffCount_cons] at h ⊢
      by_cases hxy : x = y
      · simp only [countDifferences, hxy, ne_eq, not_true_eq_false, if_false, zero_add] at h ⊢
        exact ih ys d h
      · simp only [countDifferences, hxy, ne_eq, not_false_eq_true, if_true] at h ⊢
        rw [Nat.mod_eq_of_lt (by omega), ih ys (d + 1) (by omega)]
        omega

/-- The read loop on two files of the same length ends and has counted the
differing positions. -/
theorem compareLoop_eq (fuel : Nat) (a b : List Nat) (d : Nat) (hlen : a.length = b.length)
    (hfuel : a.length / 8192 + 2 ≤ fuel) (hd : d + diffCount a b < 2 ^ 64) :
    compareLoop fuel { rest := a, good := true } { rest := b, good := true } d =
      some (decide (d + diffCount a b = 0), d + diffCount a b) := by
  induction fuel generalizing a b d with
  | zero => omega
  | succ fuel ih =>
    by_cases hbig : 8192 ≤ a.length
    · have hbigb : 8192 ≤ b.length := by omega
      have hsplit := diffCount_take_drop 8192 a b
      have hr1 : ({ rest := a, good := true } : IfStream).read 8192 =
          (a.take 8192, { rest := a.drop 8192, good := true }) := by
        simp only [IfStream.read, if_true, hbig]
      have hr2 : ({ rest := b, good := true } : IfStream).read 8192 =
          (b.take 8192, { rest := b.drop 8192, good := true }) := by
        simp only [IfStream.read, if_true, hbigb]
      have hl : (a.take 8192).length = (b.take 8192).length := by
        simp only [List.length_take]; omega
      simp only [compareLoop, hr1, hr2, and_self, if_true, hl, ne_eq, not_true_eq_false, if_false]
      rw [countDifferences_eq _ _ d (by omega),
        ih (a.drop 8192) (b.drop 8192) _ (by simp only [List.length_drop]; omega)
          (by simp only [List.length_drop]; omega) (by omega)]
      have e : d + diffCount (a.take 8192) (b.take 8192) + diffCount (a.drop 8192) (b.drop 8192)
          = d + diffCount a b := by omega
      rw [e]
    · have hbigb : ¬ 8192 ≤ b.length := by omega
      have hr1 : ({ rest := a, good := true } : IfStream).read 8192 =
          (a, { rest := [], good := false }) := by
        simp only [IfStream.read, if_true, hbig, if_false]
      have hr2 : ({ rest := b, good := true } : IfStream).read 8192 =
          (b, { rest := [], good := false }) := by
        simp only [IfStream.read, if_true, hbigb, if_false]
      obtain ⟨k, rfl⟩ : ∃ k, fuel = k + 1 := ⟨fuel - 1, by omega⟩
      simp only [compareLoop, hr1, hr2, and_self, if_true, hlen, ne_eq, not_true_eq_false,
        if_false, Bool.false_eq_true]
      rw [countDifferences_eq _ _ d hd]

/-- The size test of `compareFiles` on two sizes below `2^63`. -/
theorem absDifference_eq (s1 s2 : Nat) (h1 : s1 < 2 ^ 63) (h2 : s2 < 2 ^ 63) :
    absDifference s1 s2 = Int.natAbs ((s1 : Int) - (s2 : Int)) := by
  unfold absDifference toInt64 subUInt64
  split <;> omega

/-- The run of `compareFiles` on two readable files. -/
theorem compareFiles_regular (fs : FileSystem) (p1 p2 a b err : List Nat) (diffSize : Option Nat)
    (h1 : fs p1 = FileNode.regular a) (h2 : fs p2 = FileNode.regular b) :
    compareFiles fs (some p1) (some p2) diffSize err =
      (compareStreams a b).map (fun r => (r.1, diffSize.map (fun _ => r.2), err)) := by
  simp only [compareFiles, h1, h2]

/-- C12: for two readable files of equal length (empty, a multiple of the
8192-byte chunk, or spanning several chunks), `compareFiles` stores in
`diffSize` the number of positions at which they differ and returns true
exactly when they are equal; comparing a file with itself gives true and 0, and
changing one byte gives false and 1. -/
theorem C12_compare_equal_length (fs : FileSystem) (p1 p2 a b err : List Nat)
    (diffSize : Option Nat)
    (h1 : fs p1 = FileNode.regular a) (h2 : fs p2 = FileNode.regular b)
    (hlen : a.length = b.length) (hsize : a.length < 2 ^ 63) :
    compareFiles fs (some p1) (some p2) diffSize err =
        some (decide (a = b), diffSize.map (fun _ => diffCount a b), err) ∧
    (a = b → compareFiles fs (some p1) (some p2) diffSize err =
        some (true, diffSize.map (fun _ => 0), err)) ∧
    (∀ i v, i < a.length → v ≠ a.getD i 0 → b = a.set i v →
      compareFiles fs (some p1) (some p2) diffSize err =
        some (false, diffSize.map (fun _ => 1), err)) := by
  have hle := diffCount_le a b
  have hmain : compareFiles fs (some p1) (some p2) diffSize err =
      some (decide (a = b), diffSize.map (fun _ => diffCount a b), err) := by
    rw [compareFiles_regular fs p1 p2 a b err diffSize h1 h2]
    have hs : ¬ (a.length % 2 ^ 64 ≠ b.length % 2 ^ 64) := by rw [hlen]; simp
    simp only [compareStreams, if_neg hs]
    rw [compareLoop_eq _ a b 0 hlen (le_refl _) (by omega)]
    simp only [zero_add, Option.map_some', decide_eq_decide.mpr (diffCount_eq_zero_iff a b hlen)]
  refine ⟨hmain, ?_, ?_⟩
  · intro hab
    rw [hmain, hab, diffCount_self]
    simp
  · intro i v hi hv hb
    have hne : a ≠ b := by
      intro hab
      have := diffCount_set a i v hi hv
      rw [← hb, ← hab, diffCount_self] at this
      omega
    rw [hmain, hb, diffCount_set a i v hi hv, ← hb]
    simp [hne]

/-- C12 at a concrete input: `1 2 3` against `1 9 3`. -/
theorem C12_compare_equal_length_witness :
    compareFiles (fun p => if p = [97] then FileNode.regular [1, 2, 3] else FileNode.regular [1, 9, 3])
        (some [97]) (some [98]) (some 77) [] = some (false, some 1, []) :=
  (C12_compare_equal_length
    (fun p => if p = [97] then FileNode.regular [1, 2, 3] else FileNode.regular [1, 9, 3])
    [97] [98] [1, 2, 3] [1, 9, 3] [] (some 77) (by decide) (by decide) (by decide)
    (by decide)).2.2 1 9 (by decide) (by decide) (by decide)

/-- C13: for two readable files of different sizes, `compareFiles` returns false
and stores in `diffSize` the absolute difference of the sizes, whichever file is
larger; the result is the same for any other contents of the same sizes, no
content byte being compared. -/
theorem C13_compare_size_mismatch (fs fs2 : FileSystem) (p1 p2 a b a2 b2 err : List Nat)
    (diffSize : Option Nat)
    (h1 : fs p1 = FileNode.regular a) (h2 : fs p2 = FileNode.regular b)
    (hne : a.length ≠ b.length) (hs1 : a.length < 2 ^ 63) (hs2 : b.length < 2 ^ 63) :
    compareFiles fs (some p1) (some p2) diffSize err =
        some (false, diffSize.map (fun _ => Int.natAbs ((a.length : Int) - (b.length : Int))),
          err) ∧
    (fs2 p1 = FileNode.regular a2 → fs2 p2 = FileNode.regular b2 →
      a2.length = a.length → b2.length = b.length →
      compareFiles fs2 (some p1) (some p2) diffSize err =
        compareFiles fs (some p1) (some p2) diffSize err) := by
  have hmain : ∀ (g : FileSystem) (x y : List Nat), g p1 = FileNode.regular x →
      g p2 = FileNode.regular y → x.length = a.length → y.length = b.length →
      compareFiles g (some p1) (some p2) diffSize err =
        some (false, diffSize.map (fun _ => Int.natAbs ((a.length : Int) - (b.length : Int))),
          err) := by
    intro g x y hx hy hxl hyl
    rw [compareFiles_regular g p1 p2 x y err diffSize hx hy]
    have hs : x.length % 2 ^ 64 ≠ y.length % 2 ^ 64 := by
      rw [hxl, hyl]; omega
    simp only [compareStreams, if_pos hs, Option.map_some']
    rw [absDifference_eq _ _ (by rw [hxl]; omega) (by rw [hyl]; omega),
      Nat.mod_eq_of_lt (by rw [hxl]; omega), Nat.mod_eq_of_lt (by rw [hyl]; omega), hxl, hyl]
  refine ⟨hmain fs a b h1 h2 rfl rfl, ?_⟩
  intro g1 g2 l1 l2
  rw [hmain fs2 a2 b2 g1 g2 l1 l2, hmain fs a b h1 h2 rfl rfl]

/-- C13 at a concrete input: a 2-byte file against a 5-byte file. -/
theorem C13_compare_size_mismatch_witness :
    compareFiles (fun p => if p = [97] then FileNode.regular [1, 2] else FileNode.regular [1, 2, 3, 4, 5])
        (some [97]) (some [98]) (some 0) [] = some (false, some 3, []) :=
  (C13_compare_size_mismatch
    (fun p => if p = [97] then FileNode.regular [1, 2] else FileNode.regular [1, 2, 3, 4, 5])
    (fun p => if p = [97] then FileNode.regular [1, 2] else FileNode.regular [1, 2, 3, 4, 5])
    [97] [98] [1, 2] [1, 2, 3, 4, 5] [1, 2] [1, 2, 3, 4, 5] [] (some 0) (by decide) (by decide)
    (by decide) (by decide) (by decide)).1

/-! ## File info -/

theorem hexValue_hexDigitUpper (n : Nat) (h : n < 16) : hexValue (hexDigitUpper n) = n := by
  unfold hexValue hexDigitUpper
  split <;> split <;> try split
  all_goals try split
  all_goals omega

theorem magicPreview_length (bytes : List Nat) :
    (magicPreview bytes).length = 3 * bytes.length := by
  induction bytes with
  | nil => rfl
  | cons b rest ih => simp only [magicPreview, List.length_cons, ih]; omega

/-- The preview loop writes one group per byte visited. -/
theorem magicPreview_isHexPreviewOf (bytes : List Nat) (hb : IsByteString bytes) :
    IsHexPreviewOf (magicPreview bytes) bytes := by
  induction bytes with
  | nil =>
    refine ⟨rfl, ?_, rfl⟩
    intro i hi; simp at hi
  | cons b rest ih =>
    have hb0 : b < 256 := hb b (by simp)
    obtain ⟨_, h2, h3⟩ := ih (fun c hc => hb c (by simp [hc]))
    refine ⟨magicPreview_length _, ?_, ?_⟩
    · intro i hi
      cases i with
      | zero => simp [magicPreview]
      | succ j =>
        have hj : j < rest.length := by simpa using hi
        have e1 : 3 * (j + 1) = ((3 * j + 1) + 1) + 1 := by omega
        rw [e1]
        simp only [magicPreview, List.getD_cons_succ]
        exact h2 j hj
    · simp only [magicPreview, decodePreview, h3, hexValue_hexDigitUpper (b / 16) (by omega),
        hexValue_hexDigitUpper (b % 16) (by omega)]
      congr 1
      omega

/-- The base name of a path with a `'/'` is the text after the last one. -/
theorem baseName_append (pre post : List Nat) (h : slashChar ∉ post) :
    baseName (pre ++ slashChar :: post) = post := by
  simp only [baseName, strrchr_append pre post slashChar h, List.drop_succ_cons, List.drop_zero]

/-- The base name of a path without `'/'` is the path. -/
theorem baseName_of_no_slash (p : List Nat) (h : slashChar ∉ p) : baseName p = p := by
  simp only [baseName, (strrchr_eq_none_iff p slashChar).mpr h]

/-- C18 (counterexample): for the path `a`, which can be neither stat'd nor
opened, the record returned by `getFileInfo` is not zeroed: its path and name
are `a`. -/
theorem C18_counterexample :
    (getFileInfo (fun _ => none) (fun _ => FileNode.absent) (some [97]) []).1.path = [97] ∧
    (getFileInfo (fun _ => none) (fun _ => FileNode.absent) (some [97]) []).1.name = [97] ∧
    (getFileInfo (fun _ => none) (fun _ => FileNode.absent) (some [97]) []).1 ≠ FileInfo.zero := by
  decide

/-- C18 (amended): for the null path `getFileInfo` returns the zeroed record and
records an error message; for a path that can be neither stat'd nor opened it
returns a record that is zeroed (type Unknown, size 0, empty signature, all
flags false) except for `path` and `name`, which hold the first 1023 bytes of
the path and the first 255 bytes of its base name (the text after the last
`'/'`), and records an error message. -/
theorem C18_failed_inspection (stat : StatTable) (fs : FileSystem) (err : List Nat) :
    (getFileInfo stat fs none err =
      ({ path := [], name := [], type := FileType.FileTypeUnknown, size := 0,
         magicSignature := [], isDirectory := false, isExecutable := false, isSigned := false },
        cstr "Invalid file path") ∧ cstr "Invalid file path" ≠ []) ∧
    (∀ p, stat p = none → fs p = FileNode.absent →
      getFileInfo stat fs (some p) err =
        ({ path := p.take 1023, name := (baseName p).take 255, type := FileType.FileTypeUnknown,
           size := 0, magicSignature := [], isDirectory := false, isExecutable := false,
           isSigned := false },
          (cstr "Cannot open file: " ++ p).take 1023) ∧
      (cstr "Cannot open file: " ++ p).take 1023 ≠ []) ∧
    (∀ pre post, slashChar ∉ post → baseName (pre ++ slashChar :: post) = post) ∧
    (∀ p, slashChar ∉ p → baseName p = p) := by
  refine ⟨⟨rfl, by decide⟩, ?_, baseName_append, baseName_of_no_slash⟩
  intro p hstat hfs
  constructor
  · simp only [getFileInfo, statInfo, statError, hstat, FileInfo.zero, Bool.false_eq_true,
      if_false, detectFileType, hfs, readMagicSignature, strncpy, setError]
  · have : cstr "Cannot open file: " = 67 :: (cstr "annot open file: ") := by decide
    rw [this]
    simp

/-- C18 (amended) at a concrete input: the missing file `d/z`. -/
theorem C18_failed_inspection_witness :
    (getFileInfo (fun _ => none) (fun _ => FileNode.absent) (some [100, 47, 122]) []).1 =
      { path := [100, 47, 122], name := [122], type := FileType.FileTypeUnknown,
        size := 0, magicSignature := [], isDirectory := false, isExecutable := false,
        isSigned := false } :=
  congrArg Prod.fst
    ((C18_failed_inspection (fun _ => none) (fun _ => FileNode.absent) []).2.1
      [100, 47, 122] rfl rfl).1

/-- C19: for a file that is not a directory and has `n` readable bytes, the
`magicSignature` of `getFileInfo` consists of exactly `min n 8` groups, group
`i` being the two hexadecimal digits of byte `i` of the file followed by one
space, so that decoding the groups gives the first `min n 8` bytes back; it is
empty for an empty file and for a directory, and it fits the 64-byte field. -/
theorem C19_magic_preview (stat : StatTable) (fs : FileSystem) (path err : List Nat) :
    (∀ content, fs path = FileNode.regular content → IsByteString content →
      (∀ st, stat path = some st → st.isDir = false) →
      IsHexPreviewOf (getFileInfo stat fs (some path) err).1.magicSignature (content.take 8) ∧
      (content.take 8).length = min content.length 8 ∧
      (content = [] → (getFileInfo stat fs (some path) err).1.magicSignature = []) ∧
      (getFileInfo stat fs (some path) err).1.magicSignature.length + 1 ≤ 64) ∧
    (∀ st, stat path = some st → st.isDir = true →
      (getFileInfo stat fs (some path) err).1.magicSignature = []) := by
  constructor
  · intro content hfile hbytes hnd
    have hdir : ¬ (statInfo stat path).isDirectory = true := by
      unfold statInfo
      cases hs : stat path with
      | none => simp [FileInfo.zero]
      | some st => simp [hnd st hs]
    have hsig : (getFileInfo stat fs (some path) err).1.magicSignature =
        magicPreview (content.take 8) := by
      simp only [getFileInfo, hdir, if_false, readMagicSignature, hfile, List.take_take]
      rfl
    rw [hsig]
    have hb8 : IsByteString (content.take 8) := fun b hb => hbytes b (List.mem_of_mem_take hb)
    have hl : (content.take 8).length = min content.length 8 := by
      simp only [List.length_take]; omega
    refine ⟨magicPreview_isHexPreviewOf _ hb8, hl, ?_, ?_⟩
    · intro h; rw [h]; rfl
    · rw [magicPreview_length, hl]; omega
  · intro st hs hd
    have hdir : (statInfo stat path).isDirectory = true := by
      simp only [statInfo, hs, hd]
    simp only [getFileInfo]
    rw [if_pos hdir]
    simp only [statInfo, hs, FileInfo.zero]

/-- C19 at a concrete input: the file `AB 00 0A` named `a`. -/
theorem C19_magic_preview_witness :
    IsHexPreviewOf
      (getFileInfo (fun _ => some ⟨3, false, false⟩) (fun _ => FileNode.regular [0xAB, 0, 10])
        (some [97]) []).1.magicSignature [0xAB, 0, 10] :=
  ((C19_magic_preview (fun _ => some ⟨3, false, false⟩) (fun _ => FileNode.regular [0xAB, 0, 10])
    [97] []).1 [0xAB, 0, 10] rfl (by decide)
    (by intro st h; cases h; rfl)).1

/-! ## Directory scanning -/

/-- The type found by `detectFileType` does not depend on the previous error
message. -/
theorem detectFileType_fst_indep (fs : FileSystem) (p : Option (List Nat)) (e1 e2 : List Nat) :
    (detectFileType fs p e1).1 = (detectFileType fs p e2).1 := by
  cases p with
  | none => rfl
  | some q =>
    simp only [detectFileType]
    cases fs q <;> rfl

/-- The record built by `getFileInfo` does not depend on the previous error
message. -/
theorem getFileInfo_fst_indep (stat : StatTable) (fs : FileSystem) (p : List Nat)
    (e1 e2 : List Nat) :
    (getFileInfo stat fs (some p) e1).1 = (getFileInfo stat fs (some p) e2).1 := by
  simp only [getFileInfo]
  split
  · rfl
  · simp only [detectFileType_fst_indep fs (some p) (statError stat p e1) (statError stat p e2)]

/-- The directory flag of the record is the one `stat` reports. -/
theorem getFileInfo_isDirectory (stat : StatTable) (fs : FileSystem) (p e : List Nat) :
    (getFileInfo stat fs (some p) e).1.isDirectory = (statInfo stat p).isDirectory := by
  simp only [getFileInfo]
  split <;> rfl

theorem statInfo_isDirectory_of_dir (stat : StatTable) (p : List Nat)
    (h : ∃ st, stat p = some st ∧ st.isDir = true) : (statInfo stat p).isDirectory = true := by
  obtain ⟨st, hs, hd⟩ := h
  simp only [statInfo, hs, hd]

theorem statInfo_isDirectory_of_file (stat : StatTable) (p : List Nat)
    (h : ∀ st, stat p = some st → st.isDir = false) : (statInfo stat p).isDirectory = false := by
  unfold statInfo
  cases hs : stat p with
  | none => rfl
  | some st => simp only [h st hs]

theorem Listing.length_paths (tree : Listing) (dirPath : List Nat) :
    (tree.paths dirPath).length = tree.countFiles + tree.countDirs := by
  induction tree generalizing dirPath with
  | nil => rfl
  | dots parent rest ih => simp only [Listing.paths, Listing.countFiles, Listing.countDirs, ih]
  | file name rest ih =>
    simp only [Listing.paths, Listing.countFiles, Listing.countDirs, List.length_cons, ih]
    omega
  | dir name children rest ihc ihr =>
    simp only [Listing.paths, Listing.countFiles, Listing.countDirs, List.length_cons,
      List.length_append, ihc, ihr]
    omega

theorem scanRecords_length (stat : StatTable) (fs : FileSystem) (tree : Listing)
    (dirPath : List Nat) :
    (scanRecords stat fs tree dirPath).length = tree.countFiles + tree.countDirs := by
  simp only [scanRecords, List.length_map, Listing.length_paths]

theorem toInt32_of_small (n : Nat) (h : n < 2 ^ 31) : toInt32 n = (n : Int) := by
  unfold toInt32
  rw [Nat.mod_eq_of_lt (by omega), if_pos h]

/-- The `readdir` loop over the listing of a tree appends the records of the tree
in pre-order, given fuel for the depth of the tree. -/
theorem scanEntries_realizes (dirs : DirTable) (stat : StatTable) (fs : FileSystem)
    (tree : Listing) :
    ∀ (fuel : Nat) (dirPath : List Nat) (files : List FileInfo) (err : List Nat),
      Realizes dirs stat tree dirPath → tree.depth ≤ fuel →
      tree.countFiles + tree.countDirs < 2 ^ 31 →
      ∃ err2, scanEntries stat fs
          (fun p e => scanDirectory dirs stat fs fuel (some p) true (some 0) e)
          dirPath true tree.names files err =
        some (files ++ scanRecords stat fs tree dirPath, err2) := by
  induction tree with
  | nil =>
    intro fuel dirPath files err _ _ _
    exact ⟨err, by simp [Listing.names, scanEntries, scanRecords, Listing.paths]⟩
  | dots parent rest ih =>
    intro fuel dirPath files err hr hd hs
    obtain ⟨e2, h2⟩ := ih fuel dirPath files err hr hd hs
    refine ⟨e2, ?_⟩
    have hc : (if parent = true then litDotDot else litDot) = litDot ∨
        (if parent = true then litDotDot else litDot) = litDotDot := by
      cases parent <;> simp
    simp only [Listing.names, scanEntries, hc, if_true]
    exact h2
  | file name rest ih =>
    intro fuel dirPath files err hr hd hs
    obtain ⟨hn1, hn2, hlen, hstat, hrest⟩ := hr
    have hc : ¬ (name = litDot ∨ name = litDotDot) := by
      rintro (h | h)
      · exact hn1 h
      · exact hn2 h
    have htake : (dirPath ++ slashChar :: name).take 1023 = dirPath ++ slashChar :: name :=
      List.take_of_length_le hlen
    have hnd : (getFileInfo stat fs (some (dirPath ++ slashChar :: name)) err).1.isDirectory
        = false := by
      rw [getFileInfo_isDirectory, statInfo_isDirectory_of_file stat _ hstat]
    obtain ⟨e2, h2⟩ := ih fuel dirPath
      (files ++ [(getFileInfo stat fs (some (dirPath ++ slashChar :: name)) err).1])
      (getFileInfo stat fs (some (dirPath ++ slashChar :: name)) err).2 hrest hd
      (by simp only [Listing.countFiles, Listing.countDirs] at hs; omega)
    refine ⟨e2, ?_⟩
    simp only [Listing.names, scanEntries, hc, if_false, htake, hnd, Bool.false_eq_true,
      and_false]
    rw [h2]
    simp only [scanRecords, Listing.paths, List.map_cons, List.append_assoc, List.singleton_append,
      getFileInfo_fst_indep stat fs _ err []]
  | dir name children rest ihc ihr =>
    intro fuel dirPath files err hr hd hs
    obtain ⟨hn1, hn2, hlen, hstat, hopen, hchildren, hrest⟩ := hr
    simp only [Listing.depth] at hd
    simp only [Listing.countFiles, Listing.countDirs] at hs
    have hc : ¬ (name = litDot ∨ name = litDotDot) := by
      rintro (h | h)
      · exact hn1 h
      · exact hn2 h
    have htake : (dirPath ++ slashChar :: name).take 1023 = dirPath ++ slashChar :: name :=
      List.take_of_length_le hlen
    have hisd : (getFileInfo stat fs (some (dirPath ++ slashChar :: name)) err).1.isDirectory
        = true := by
      rw [getFileInfo_isDirectory, statInfo_isDirectory_of_dir stat _ hstat]
    obtain ⟨k, rfl⟩ : ∃ k, fuel = k + 1 := ⟨fuel - 1, by omega⟩
    obtain ⟨e1, h1⟩ := ihc k (dirPath ++ slashChar :: name) []
      (getFileInfo stat fs (some (dirPath ++ slashChar :: name)) err).2 hchildren (by omega)
      (by omega)
    have hsub : scanDirectory dirs stat fs (k + 1) (some (dirPath ++ slashChar :: name)) true
        (some 0) (getFileInfo stat fs (some (dirPath ++ slashChar :: name)) err).2 =
        some { array := if scanRecords stat fs children (dirPath ++ slashChar :: name) = [] then none
                        else some (scanRecords stat fs children (dirPath ++ slashChar :: name)),
               count := some (toInt32
                 (scanRecords stat fs children (dirPath ++ slashChar :: name)).length),
               err := e1 } := by
      simp only [scanDirectory, hopen, h1, Option.map_some', List.nil_append]
    have hfiles : (match (if scanRecords stat fs children (dirPath ++ slashChar :: name) = []
          then none
          else some (scanRecords stat fs children (dirPath ++ slashChar :: name))) with
        | some subFiles =>
          files ++ [(getFileInfo stat fs (some (dirPath ++ slashChar :: name)) err).1] ++
            subFiles.take ((some (toInt32
              (scanRecords stat fs children (dirPath ++ slashChar :: name)).length)).getD
                0).toNat
        | none => files ++ [(getFileInfo stat fs (some (dirPath ++ slashChar :: name)) err).1]) =
        files ++ [(getFileInfo stat fs (some (dirPath ++ slashChar :: name)) err).1] ++
          scanRecords stat fs children (dirPath ++ slashChar :: name) := by
      by_cases hemp : scanRecords stat fs children (dirPath ++ slashChar :: name) = []
      · simp only [hemp, if_true, List.append_nil]
      · have hl := scanRecords_length stat fs children (dirPath ++ slashChar :: name)
        simp only [hemp, if_false, Option.getD_some]
        rw [toInt32_of_small _ (by omega), Int.toNat_ofNat, List.take_length]
    obtain ⟨e2, h2⟩ := ihr (k + 1) dirPath
      (files ++ [(getFileInfo stat fs (some (dirPath ++ slashChar :: name)) err).1] ++
        scanRecords stat fs children (dirPath ++ slashChar :: name)) e1 hrest (by omega) (by omega)
    refine ⟨e2, ?_⟩
    simp only [Listing.names, scanEntries, hc, if_false, htake, hisd, and_self, if_true, hsub,
      hfiles]
    rw [h2]
    simp only [scanRecords, Listing.paths, List.map_cons, List.map_append, List.append_assoc,
      List.singleton_append, List.cons_append, List.nil_append,
      getFileInfo_fst_indep stat fs _ err []]

/-- Under `Realizes`, no path of the tree exceeds what `fullPath` can hold. -/
theorem Listing.paths_length_le (dirs : DirTable) (stat : StatTable) (tree : Listing) :
    ∀ dirPath, Realizes dirs stat tree dirPath → ∀ p ∈ tree.paths dirPath, p.length ≤ 1023 := by
  induction tree with
  | nil => intro dirPath _ p hp; simp [Listing.paths] at hp
  | dots parent rest ih => intro dirPath hr p hp; exact ih dirPath hr p hp
  | file name rest ih =>
    intro dirPath hr p hp
    obtain ⟨_, _, hlen, _, hrest⟩ := hr
    simp only [Listing.paths, List.mem_cons] at hp
    rcases hp with rfl | hp
    · exact hlen
    · exact ih dirPath hrest p hp
  | dir name children rest ihc ihr =>
    intro dirPath hr p hp
    obtain ⟨_, _, hlen, _, _, hchildren, hrest⟩ := hr
    simp only [Listing.paths, List.mem_cons, List.mem_append] at hp
    rcases hp with rfl | hp | hp
    · exact hlen
    · exact ihc _ hchildren p hp
    · exact ihr dirPath hrest p hp

/-- The `path` field of the record of a path that fits the field. -/
theorem getFileInfo_path (stat : StatTable) (fs : FileSystem) (p e : List Nat)
    (h : p.length ≤ 1023) : (getFileInfo stat fs (some p) e).1.path = p := by
  have hs : (statInfo stat p).path = p := by
    unfold statInfo strncpy
    cases stat p <;> exact List.take_of_length_le h
  simp only [getFileInfo]
  split <;> exact hs

/-- C16: when the file system holds a finite tree below `dirPath` (every
directory can be opened, no path is truncated, fewer than `2^31` entries), a
recursive `scanDirectory`, given fuel for the depth of the tree, returns exactly
the records of the `N` files and `M` subdirectories of the tree, one per entry
and none for `dirPath`, `.` or `..`, in pre-order: every subdirectory's record is
immediately followed by the block of the records of its own tree, and siblings
keep the order of the listing. The count reported is `N + M`, the number of
records returned (and the pointer is null when there is none). -/
theorem C16_recursive_scan_is_preorder (dirs : DirTable) (stat : StatTable) (fs : FileSystem)
    (dirPath : List Nat) (tree : Listing) (count0 : Int) (err : List Nat) (fuel : Nat)
    (hopen : dirs dirPath = some tree.names) (htree : Realizes dirs stat tree dirPath)
    (hfuel : tree.depth + 1 ≤ fuel) (hsmall : tree.countFiles + tree.countDirs < 2 ^ 31) :
    (∃ err2, scanDirectory dirs stat fs fuel (some dirPath) true (some count0) err =
      some { array := if tree.countFiles + tree.countDirs = 0 then none
                      else some (scanRecords stat fs tree dirPath),
             count := some ((tree.countFiles + tree.countDirs : Nat) : Int),
             err := err2 }) ∧
    (scanRecords stat fs tree dirPath).length = tree.countFiles + tree.countDirs ∧
    (scanRecords stat fs tree dirPath).map (fun r => r.path) = tree.paths dirPath ∧
    (∀ name children rest d,
      scanRecords stat fs (Listing.dir name children rest) d =
        (getFileInfo stat fs (some (d ++ slashChar :: name)) []).1 ::
          (scanRecords stat fs children (d ++ slashChar :: name) ++ scanRecords stat fs rest d)) ∧
    (∀ name rest d,
      scanRecords stat fs (Listing.file name rest) d =
        (getFileInfo stat fs (some (d ++ slashChar :: name)) []).1 :: scanRecords stat fs rest d) ∧
    (∀ parent rest d,
      scanRecords stat fs (Listing.dots parent rest) d = scanRecords stat fs rest d) := by
  have hlen := scanRecords_length stat fs tree dirPath
  refine ⟨?_, hlen, ?_, ?_, ?_, ?_⟩
  · obtain ⟨k, rfl⟩ : ∃ k, fuel = k + 1 := ⟨fuel - 1, by omega⟩
    obtain ⟨e2, h2⟩ := scanEntries_realizes dirs stat fs tree k dirPath [] err htree (by omega)
      hsmall
    refine ⟨e2, ?_⟩
    simp only [scanDirectory, hopen, h2, Option.map_some', List.nil_append, hlen,
      toInt32_of_small _ hsmall]
    have hiff : scanRecords stat fs tree dirPath = [] ↔ tree.countFiles + tree.countDirs = 0 := by
      rw [← hlen]
      exact List.length_eq_zero.symm
    by_cases hz : tree.countFiles + tree.countDirs = 0
    · simp only [hz, if_true, hiff.mpr hz]
    · simp only [hz, if_false, mt hiff.mp hz]
  · simp only [scanRecords, List.map_map]
    have hp := Listing.paths_length_le dirs stat tree dirPath htree
    calc List.map ((fun r => r.path) ∘ fun p => (getFileInfo stat fs (some p) []).1)
          (tree.paths dirPath)
        = List.map id (tree.paths dirPath) :=
          List.map_congr_left (fun p hpm => getFileInfo_path stat fs p [] (hp p hpm))
      _ = tree.paths dirPath := List.map_id _
  · intro name children rest d
    simp only [scanRecords, Listing.paths, List.map_cons, List.map_append]
  · intro name rest d
    simp only [scanRecords, Listing.paths, List.map_cons]
  · intro parent rest d
    simp only [scanRecords, Listing.paths]

/-- The small file system holds the small tree. -/
theorem exampleTree_realizes : Realizes exampleDirs exampleStat exampleTree [100] := by
  simp [Realizes, exampleTree, exampleStat, exampleDirs, Listing.names, litDot, litDotDot,
    slashChar]

/-- C16 at a concrete input: the scan of the small file system returns its four
records. -/
theorem C16_recursive_scan_is_preorder_witness :
    ∃ err2, scanDirectory exampleDirs exampleStat exampleFiles 2 (some [100]) true (some 7) [] =
      some { array := some (scanRecords exampleStat exampleFiles exampleTree [100]),
             count := some 4, err := err2 } :=
  (C16_recursive_scan_is_preorder exampleDirs exampleStat exampleFiles [100] exampleTree 7 [] 2
    (by decide) exampleTree_realizes (by decide) (by decide)).1

/-! ## Classifier and analyzer -/

/-- When the signature loop stops, it stops at a row whose pattern starts the
file. -/
theorem matchSignature_some (path content : List Nat) (tbl : List MagicSignature) (t : FileType)
    (hwf : ∀ sig ∈ tbl, sig.length = sig.bytes.length ∧ sig.length ≤ 32)
    (h : matchSignature path (content.take 32) tbl = some t) :
    ∃ sig ∈ tbl, sig.bytes <+: content ∧ t = matchedType path sig := by
  induction tbl with
  | nil => simp [matchSignature] at h
  | cons s rest ih =>
    have hs := hwf s (by simp)
    simp only [matchSignature] at h
    by_cases hc : (content.take 32).length ≥ s.length ∧
        memcmp (content.take 32) s.bytes s.length = 0
    · rw [if_pos hc] at h
      refine ⟨s, by simp, (signature_test_iff content s hs.1 hs.2).mp hc, ?_⟩
      exact (Option.some.inj h).symm
    · rw [if_neg hc] at h
      obtain ⟨sig, hm, hp, ht⟩ := ih (fun x hx => hwf x (by simp [hx])) h
      exact ⟨sig, by simp [hm], hp, ht⟩

/-- A matching row yields its own type or `FileTypeIPA`. -/
theorem matchedType_cases (path : List Nat) (sig : MagicSignature) :
    matchedType path sig = FileType.FileTypeIPA ∨ matchedType path sig = sig.type := by
  unfold matchedType
  split
  · split
    · split
      · exact Or.inl rfl
      · exact Or.inr rfl
    · exact Or.inr rfl
  · exact Or.inr rfl

/-- The extension fallback never answers `FileTypeMachO`. -/
theorem extensionFallback_ne_machO (path : List Nat) :
    extensionFallback path ≠ some FileType.FileTypeMachO := by
  unfold extensionFallback
  split
  · simp
  · dsimp only
    repeat' split
    all_goals simp

/-- The classification is `FileTypeMachO` only through the signature loop. -/
theorem classifyBuffer_machO (path buffer : List Nat)
    (h : classifyBuffer path buffer = FileType.FileTypeMachO) :
    matchSignature path buffer magicSignatures = some FileType.FileTypeMachO := by
  unfold classifyBuffer at h
  cases hm : matchSignature path buffer magicSignatures with
  | some t =>
    rw [hm] at h
    simp only at h
    rw [h]
  | none =>
    rw [hm] at h
    simp only at h
    split at h
    · cases h
    · cases he : extensionFallback path with
      | some t =>
        rw [he] at h
        simp only at h
        rw [h] at he
        exact absurd he (extensionFallback_ne_machO path)
      | none =>
        rw [he] at h
        simp only at h
        split at h <;> cases h

/-- C21: whenever `detectFileType` returns `FileTypeMachO` for a path, `analyzeMachO`
on the same path returns `isValid = true` and leaves the error message alone
(neither the invalid-magic nor the cannot-read-magic exit is taken), on a
little-endian and on a big-endian host alike. -/
theorem C21_classified_machO_is_valid (bigEndianHost : Bool) (fs : FileSystem)
    (filePath : Option (List Nat)) (err err2 : List Nat)
    (h : (detectFileType fs filePath err).1 = FileType.FileTypeMachO) :
    (analyzeMachO bigEndianHost fs filePath err2).1.isValid = true ∧
    (analyzeMachO bigEndianHost fs filePath err2).2 = err2 := by
  have htable : ∀ sig ∈ magicSignatures, sig.type = FileType.FileTypeMachO →
      sig.bytes ∈ recognisedMagics ∧ sig.bytes.length = 4 := by decide
  cases filePath with
  | none => simp [detectFileType] at h
  | some p =>
    cases hfs : fs p with
    | absent => simp [detectFileType, hfs] at h
    | unreadable => simp [detectFileType, hfs] at h
    | regular content =>
      rw [detectFileType_regular fs p content err hfs] at h
      obtain ⟨sig, hmem, hpre, ht⟩ := matchSignature_some p content magicSignatures _
        magicSignatures_wellFormed (classifyBuffer_machO p _ h)
      have htype : sig.type = FileType.FileTypeMachO := by
        rcases matchedType_cases p sig with hc | hc
        · rw [hc] at ht; cases ht
        · rw [hc] at ht; exact ht.symm
      obtain ⟨hrec, hlen4⟩ := htable sig hmem htype
      obtain ⟨r, rfl⟩ := hpre
      have htake : (sig.bytes ++ r).take 4 = sig.bytes := by
        rw [← hlen4, List.take_left]
      rw [analyzeMachO_regular bigEndianHost fs p _ err2 hfs
        (by simp only [List.length_append]; omega), htake]
      simp only [recognisedMagics, List.mem_append] at hrec
      rcases hrec with (hm | hm) | hm
      · rw [analyzeMagic_arm bigEndianHost _ _ hm]
        exact ⟨rfl, rfl⟩
      · rw [analyzeMagic_arm64 bigEndianHost _ _ hm]
        exact ⟨rfl, rfl⟩
      · rw [analyzeMagic_fat bigEndianHost _ _ hm]
        split <;> exact ⟨rfl, rfl⟩

/-- C21 at a concrete input: a byte-swapped 32-bit header on a big-endian host. -/
theorem C21_classified_machO_is_valid_witness :
    (detectFileType (fun _ => FileNode.regular [0xCE, 0xFA, 0xED, 0xFE, 7]) (some [97]) []).1
      = FileType.FileTypeMachO ∧
    (analyzeMachO true (fun _ => FileNode.regular [0xCE, 0xFA, 0xED, 0xFE, 7]) (some [97])
      []).1.isValid = true :=
  ⟨by decide,
    (C21_classified_machO_is_valid true (fun _ => FileNode.regular [0xCE, 0xFA, 0xED, 0xFE, 7])
      (some [97]) [] [] (by decide)).1⟩

/-! ## A dot in a directory component -/

/-- When the base name of a path has no `'.'`, the text after the last `'.'` of
the path, if any, contains a `'/'`. -/
theorem slash_mem_extension (path ext : List Nat) (hbase : dotChar ∉ baseName path)
    (hext : HasExtension path ext) : slashChar ∈ ext := by
  obtain ⟨pre, hp, hdot⟩ := hext
  cases hs : strrchr path slashChar with
  | none =>
    have hb : baseName path = path := by simp only [baseName, hs]
    rw [hb, hp] at hbase
    exact absurd (by simp) hbase
  | some r =>
    obtain ⟨pre2, post, hp2, hslash, rfl⟩ := strrchr_eq_some path r slashChar hs
    have hb : baseName path = post := by
      simp only [baseName, hs, List.drop_succ_cons, List.drop_zero]
    rw [hb] at hbase
    have heq : pre ++ dotChar :: ext = pre2 ++ slashChar :: post := hp.symm.trans hp2
    rcases List.append_eq_append_iff.mp heq with ⟨a, _, h2⟩ | ⟨c, _, h2⟩
    · cases a with
      | nil =>
        simp only [List.nil_append, List.cons.injEq] at h2
        exact absurd h2.1 (by decide)
      | cons x a2 =>
        simp only [List.cons_append, List.cons.injEq] at h2
        rw [h2.2]
        simp
    · have hmem : dotChar ∈ slashChar :: post := by rw [h2]; simp
      rcases List.mem_cons.mp hmem with h | h
      · exact absurd h (by decide)
      · exact absurd h hbase

/-- A string that contains a `'/'` equals, up to letter case, no string whose
lower-cased form has none. -/
theorem not_eqIgnoreAsciiCase_of_slash (ext lit : List Nat) (hs : slashChar ∈ ext)
    (hl : slashChar ∉ lit.map tolower) : ¬ eqIgnoreAsciiCase ext lit := by
  intro heq
  apply hl
  rw [← heq]
  exact List.mem_map.mpr ⟨slashChar, hs, by decide⟩

/-- When the base name of a path has no `'.'`, the table maps no extension of the
path. -/
theorem not_extensionMapsTo_of_base (path : List Nat) (hbase : dotChar ∉ baseName path)
    (t : FileType) : ¬ ExtensionMapsTo path t := by
  rintro ⟨ext, e, hext, hmem, heq⟩
  have htable : ∀ p ∈ mappedExtensions, slashChar ∉ p.1.map tolower := by decide
  exact not_eqIgnoreAsciiCase_of_slash ext e (slash_mem_extension path ext hbase hext)
    (htable (e, t) hmem) heq

/-- When the base name of a path has no `'.'`, the path has no `.ipa` suffix. -/
theorem not_hasIpaSuffix_of_base (path : List Nat) (hbase : dotChar ∉ baseName path) :
    ¬ HasIpaSuffix path := by
  rintro ⟨ext, hext, heq⟩
  have hs : slashChar ∈ dotChar :: ext :=
    List.mem_cons_of_mem _ (slash_mem_extension path ext hbase hext)
  exact not_eqIgnoreAsciiCase_of_slash _ litDotIpa hs (by decide) heq

/-- The signature loop gives the same result for two paths on which the row
refinement agrees. -/
theorem matchSignature_congr_of (p1 p2 buffer : List Nat) (tbl : List MagicSignature)
    (h : ∀ sig, matchedType p1 sig = matchedType p2 sig) :
    matchSignature p1 buffer tbl = matchSignature p2 buffer tbl := by
  induction tbl with
  | nil => rfl
  | cons s rest ih => simp only [matchSignature, h s, ih]

/-- C22: for a path whose base name (the text after its last `'/'`) contains no
`'.'`, a dot in a directory component changes nothing: the `.ipa` refinement
does not fire (a matching row yields its own type, Archive for the ZIP rows),
the extension fallback maps nothing, and `detectFileType` returns what it
returns for the same content under any path without `'.'`: the type of the
matching row, else Video on the `ftyp` test, else the result of the text
test. -/
theorem C22_dot_in_directory_is_harmless (fs : FileSystem) (path content err : List Nat)
    (hpath : IsCString path) (hfile : fs path = FileNode.regular content)
    (hbase : dotChar ∉ baseName path) :
    (∀ sig, matchedType path sig = sig.type) ∧
    extensionFallback path = none ∧
    (∀ (fs2 : FileSystem) (path2 err2 : List Nat), dotChar ∉ path2 →
      fs2 path2 = FileNode.regular content →
      (detectFileType fs (some path) err).1 = (detectFileType fs2 (some path2) err2).1) ∧
    (∀ sig ∈ magicSignatures, sig.bytes <+: content →
      (detectFileType fs (some path) err).1 = sig.type) ∧
    (¬ SignatureMatches content →
      (detectFileType fs (some path) err).1 =
        if 12 ≤ content.length ∧ FtypAtOffset4 content then FileType.FileTypeVideo
        else if ∀ b ∈ content.take 32, IsTextByte b then FileType.FileTypeText
        else FileType.FileTypeUnknown) := by
  have hmt : ∀ sig, matchedType path sig = sig.type := fun sig =>
    (matchedType_eq path sig hpath).2 (fun h => not_hasIpaSuffix_of_base path hbase h.2)
  have hfb : extensionFallback path = none :=
    extensionFallback_of_unmapped path hpath (not_extensionMapsTo_of_base path hbase)
  have hres := detectFileType_regular fs path content err hfile
  refine ⟨hmt, hfb, ?_, ?_, ?_⟩
  · intro fs2 path2 err2 hnodot hfile2
    have hnone : strrchr path2 dotChar = none := (strrchr_eq_none_iff path2 dotChar).mpr hnodot
    have hmt2 : ∀ sig, matchedType path2 sig = sig.type := by
      intro sig
      simp only [matchedType, hnone, ite_self]
    have hfb2 : extensionFallback path2 = none := by
      simp only [extensionFallback, hnone]
    rw [hres, detectFileType_regular fs2 path2 content err2 hfile2]
    simp only [classifyBuffer, hfb, hfb2,
      matchSignature_congr_of path path2 _ _ (fun sig => (hmt sig).trans (hmt2 sig).symm)]
  · intro sig hmem hpre
    rw [hres]
    simp only [classifyBuffer, matchSignature_of_mem path content sig hmem hpre, hmt sig]
  · intro hsig
    rw [hres]
    by_cases hftyp : 12 ≤ content.length ∧ FtypAtOffset4 content
    · rw [classifyBuffer_ftyp path content hsig hftyp, if_pos hftyp]
    · rw [classifyBuffer_fallback path content hsig hftyp, hfb, if_neg hftyp]
      by_cases ht : isText (content.take 32) = true
      · simp only [ht, if_true, if_pos ((isText_iff _).mp ht)]
      · simp only [ht, if_false, Bool.false_eq_true, if_neg (fun h => ht ((isText_iff _).mpr h))]

/-- C22 at a concrete input: a ZIP file named `x.ipa/f` is an Archive, not an IPA. -/
theorem C22_dot_in_directory_is_harmless_witness :
    (detectFileType (fun _ => FileNode.regular [0x50, 0x4B, 0x03, 0x04, 0x14])
      (some [120, 46, 105, 112, 97, 47, 102]) []).1 = FileType.FileTypeArchive :=
  (C22_dot_in_directory_is_harmless (fun _ => FileNode.regular [0x50, 0x4B, 0x03, 0x04, 0x14])
    [120, 46, 105, 112, 97, 47, 102] [0x50, 0x4B, 0x03, 0x04, 0x14] [] (by decide) rfl
    (by decide)).2.2.2.1 ⟨[0x50, 0x4B, 0x03, 0x04], 4, FileType.FileTypeArchive⟩ (by decide)
    ⟨[0x14], rfl⟩

end Feather
